import Mathlib

set_option maxRecDepth 4000

/-!
Verification of the buffer/container subsystem of `src/mirheo/core/containers.h`:
`DeviceBuffer<T>` (device-only), `HostBuffer<T>` (pinned host-only) and
`PinnedBuffer<T>` (dual device + pinned host), their resize / copy / clear /
transfer / move operations, the shared capacity growth formula, and the
CUDA-call traces they emit.

Modelling conventions:
* Device and pinned-host allocations are identified by natural-number ids
  handed out by an allocation state `Mem`; `cudaMalloc`/`cudaHostAlloc`
  register a fresh id, `cudaFree`/`cudaFreeHost` remove it.
* A buffer's allocation contents are carried as a `List T` whose length equals
  the capacity (the spec: the pointer references exactly `capacity * sizeof(T)`
  bytes).  Freshly allocated (uninitialised) storage is modelled as
  `List.replicate capacity default`.
* Every operation returns the trace of CUDA calls it performs (`Ev`), so that
  blocking behaviour (`cudaStreamSynchronize`, synchronous `cudaMemcpy`) is
  observable.
* The growth estimate `std::ceil(1.1 * static_cast<double>(n) + 10.0)` is
  modelled exactly: `roundNearest` is IEEE-754 round-to-nearest, ties-to-even,
  at binary64 precision, executed in exact rational arithmetic.
-/

namespace Containers

/-- Trace events: the CUDA runtime calls (and host memory operations) an
operation performs, in order. -/
inductive Ev where
  | mallocDev   : Ev
  | mallocHost  : Ev
  | freeDev     : Ev
  | freeHost    : Ev
  | memcpyAsync : Ev
  | memcpySync  : Ev
  | memsetAsync : Ev
  | hostMemcpy  : Ev
  | hostMemset  : Ev
  | streamSync  : Ev
deriving DecidableEq

/-- Allocation state: a fresh-id counter and the sets of live device and live
pinned-host allocations. -/
structure Mem where
  next     : Nat
  devLive  : List Nat
  hostLive : List Nat
deriving DecidableEq

def Mem.empty : Mem := ⟨0, [], []⟩

def Mem.allocDev (m : Mem) : Mem × Nat :=
  (⟨m.next + 1, m.next :: m.devLive, m.hostLive⟩, m.next)

def Mem.allocHost (m : Mem) : Mem × Nat :=
  (⟨m.next + 1, m.devLive, m.next :: m.hostLive⟩, m.next)

/-- cudaFree: freeing a null pointer is a no-op. -/
def Mem.freeDev (m : Mem) (p : Option Nat) : Mem :=
  match p with
  | none => m
  | some i => ⟨m.next, m.devLive.erase i, m.hostLive⟩

/-- cudaFreeHost: freeing a null pointer is a no-op. -/
def Mem.freeHost (m : Mem) (p : Option Nat) : Mem :=
  match p with
  | none => m
  | some i => ⟨m.next, m.devLive, m.hostLive.erase i⟩

/-- memcpy(dst, src, k * sizeof(T)): overwrite the first `k` elements of `dst`
with the first `k` elements of `src` (padding with junk if `src` is shorter,
which never happens on the paths the code takes). -/
def overwriteFirst {T : Type} [Inhabited T] (dst src : List T) (k : Nat) : List T :=
  (src.take k ++ List.replicate (k - src.length) default) ++ dst.drop k

/-! ### IEEE binary64 model of the growth estimate

The source computes `std::ceil(1.1 * static_cast<double>(n) + 10.0)`.
Each operation (the literal `1.1`, the int-to-double conversion, the product,
the sum) rounds to the nearest binary64 value, ties to even.  We reproduce
this exactly with unreduced nonnegative fractions over `Nat` (so concrete
instances evaluate by `decide`); `Frac.toRat` interprets them in `ℚ` for the
correctness proofs.  `log2fuel`/`floorLog2` computes `⌊log₂ x⌋` structurally. -/

/-- A nonnegative rational as an unreduced numerator/denominator pair. -/
structure Frac where
  num : Nat
  den : Nat
deriving DecidableEq

def Frac.toRat (f : Frac) : ℚ := (f.num : ℚ) / (f.den : ℚ)

def Frac.mul (a b : Frac) : Frac := ⟨a.num * b.num, a.den * b.den⟩

def Frac.addNat (f : Frac) (k : Nat) : Frac := ⟨f.num + k * f.den, f.den⟩

/-- Ceiling of a nonnegative fraction, as a natural number. -/
def Frac.ceilN (f : Frac) : Nat := (f.num + f.den - 1) / f.den

def log2fuel : Nat → Nat → Nat
  | 0, _ => 0
  | fuel + 1, n => if 2 ≤ n then log2fuel fuel (n / 2) + 1 else 0

def floorLog2 (n : Nat) : Nat := log2fuel n n

/-- Round the scaled significand `sn / sd` to an integer: to nearest, ties to
even. -/
def roundAt (sn sd : Nat) : Nat :=
  if 2 * (sn % sd) < sd then sn / sd
  else if sd < 2 * (sn % sd) then sn / sd + 1
  else if (sn / sd) % 2 = 0 then sn / sd else sn / sd + 1

/-- Round a nonnegative rational to the nearest IEEE binary64 value
(round-to-nearest, ties-to-even), in exact arithmetic.  Valid on the normal
range, which covers every input the growth formula produces. -/
def roundNearest (f : Frac) : Frac :=
  if f.num = 0 then ⟨0, 1⟩
  else
    ⟨roundAt (f.num * 2 ^ 52) (f.den * 2 ^ floorLog2 (f.num / f.den))
       * 2 ^ floorLog2 (f.num / f.den),
     2 ^ 52⟩

/-- The `conservative_estimate` of `_resize`:
`static_cast<size_t>(std::ceil(1.1 * static_cast<double>(n) + 10.0))`,
with every floating-point operation (the literal `1.1`, the conversion of
`n`, the product, the sum) modelled by `roundNearest`. -/
def conservativeEstimate (n : Nat) : Nat :=
  Frac.ceilN (roundNearest
    ((roundNearest ((roundNearest ⟨11, 10⟩).mul (roundNearest ⟨n, 1⟩))).addNat 10))

/-- The new capacity chosen by every `_resize` reallocation:
`capacity = 128 * ((conservative_estimate + 127) / 128)`. -/
def growCapacity (n : Nat) : Nat :=
  128 * ((conservativeEstimate n + 127) / 128)

/-- `ContainersSynch` from the source. -/
inductive ContainersSynch where
  | Synch  : ContainersSynch
  | Asynch : ContainersSynch
deriving DecidableEq

/-! ### DeviceBuffer -/

/-- `DeviceBuffer<T>`: element count `_size`, capacity, exclusively owned
device pointer (`none` = `nullptr`), and the contents of the allocation. -/
structure DeviceBuffer (T : Type) where
  capacity : Nat
  _size    : Nat
  devptr   : Option Nat
  devData  : List T
deriving DecidableEq

namespace DeviceBuffer

variable {T : Type} [Inhabited T]

/-- The default-constructed member state (`capacity{0}`, `_size{0}`,
`devptr{nullptr}`). -/
def init : DeviceBuffer T := ⟨0, 0, none, []⟩

def size (b : DeviceBuffer T) : Nat := b._size

/-- `DeviceBuffer::_resize(n, stream, copy)`.  Sets `_size = n`; if
`n > capacity` allocates a fresh device block of `growCapacity n` elements,
copies the old `oldsize` elements iff `copy` and the old pointer was non-null,
then frees the old allocation.  The CUDA stream argument carries no state we
model, so it is omitted. -/
def _resize (b : DeviceBuffer T) (n : Nat) (copy : Bool) (m : Mem) :
    DeviceBuffer T × Mem × List Ev :=
  let dold := b.devptr
  let oldsize := b._size
  if n ≤ b.capacity then ({ b with _size := n }, m, [])
  else
    let cap := growCapacity n
    let am := m.allocDev
    let fresh : List T := List.replicate cap default
    let doCopy := copy ∧ dold ≠ none ∧ 0 < oldsize
    let data := if doCopy then overwriteFirst fresh b.devData oldsize else fresh
    (⟨cap, n, some am.2, data⟩,
     am.1.freeDev dold,
     [Ev.mallocDev] ++ (if doCopy then [Ev.memcpyAsync] else [])
       ++ (if dold = none then [] else [Ev.freeDev]))

/-- `resize(n, stream)`: keep stored data. -/
def resize (b : DeviceBuffer T) (n : Nat) (m : Mem) : DeviceBuffer T × Mem × List Ev :=
  b._resize n true m

/-- `resize_anew(n)`: don't care about the data. -/
def resize_anew (b : DeviceBuffer T) (n : Nat) (m : Mem) : DeviceBuffer T × Mem × List Ev :=
  b._resize n false m

/-- `DeviceBuffer(n)`: default-initialise members, then `resize_anew(n)`. -/
def new (n : Nat) (m : Mem) : DeviceBuffer T × Mem × List Ev :=
  (init : DeviceBuffer T).resize_anew n m

/-- `clearDevice(stream)` (= `clear(stream)`): zero the first `_size`
elements via `cudaMemsetAsync`; no call when `_size == 0`. -/
def clearDevice [Zero T] (b : DeviceBuffer T) : DeviceBuffer T × List Ev :=
  if 0 < b._size then
    ({ b with devData := overwriteFirst b.devData (List.replicate b._size 0) b._size },
     [Ev.memsetAsync])
  else (b, [])

/-- `copy(cont, stream)` overload for a device-pointer source of the same
element type (a `DeviceBuffer`): `resize_anew(cont.size())`, then an
asynchronous device-to-device `cudaMemcpyAsync` of `_size` elements. -/
def copyD (b : DeviceBuffer T) (cont : DeviceBuffer T) (m : Mem) :
    DeviceBuffer T × Mem × List Ev :=
  let r := b.resize_anew cont.size m
  if 0 < r.1._size then
    ({ r.1 with devData := overwriteFirst r.1.devData cont.devData r.1._size },
     r.2.1, r.2.2 ++ [Ev.memcpyAsync])
  else r

/-- `copy(cont, stream)` overload for a host-pointer source of the same
element type (a `HostBuffer`): `resize_anew`, then an asynchronous
host-to-device `cudaMemcpyAsync`.  The source's host contents are passed as
the list `srcHost` (= `cont.hostPtr()` contents). -/
def copyH (b : DeviceBuffer T) (srcSize : Nat) (srcHost : List T) (m : Mem) :
    DeviceBuffer T × Mem × List Ev :=
  let r := b.resize_anew srcSize m
  if 0 < r.1._size then
    ({ r.1 with devData := overwriteFirst r.1.devData srcHost r.1._size },
     r.2.1, r.2.2 ++ [Ev.memcpyAsync])
  else r

/-- The synchronous `copy(const DeviceBuffer<T>&)`: same data movement as
`copyD` but through a blocking `cudaMemcpy`. -/
def copySync (b : DeviceBuffer T) (cont : DeviceBuffer T) (m : Mem) :
    DeviceBuffer T × Mem × List Ev :=
  let r := b.resize_anew cont.size m
  if 0 < r.1._size then
    ({ r.1 with devData := overwriteFirst r.1.devData cont.devData r.1._size },
     r.2.1, r.2.2 ++ [Ev.memcpySync])
  else r

/-- Move assignment `operator=(DeviceBuffer&&)` with `this != &b`: free the
destination's allocation, take over the source's fields, and reset the source
to the empty state.  Returns (new destination, new source, memory, trace). -/
def moveAssign (dst src : DeviceBuffer T) (m : Mem) :
    DeviceBuffer T × DeviceBuffer T × Mem × List Ev :=
  (⟨src.capacity, src._size, src.devptr, src.devData⟩,
   ⟨0, 0, none, []⟩,
   m.freeDev dst.devptr,
   if dst.devptr = none then [] else [Ev.freeDev])

/-- The destructor: `if (devptr != nullptr) cudaFree(devptr)`. -/
def destroy (b : DeviceBuffer T) (m : Mem) : Mem × List Ev :=
  if b.devptr = none then (m, []) else (m.freeDev b.devptr, [Ev.freeDev])

/-- `produce()`: a fresh empty sibling (`new DeviceBuffer<T>()`). -/
def produce (_b : DeviceBuffer T) : DeviceBuffer T := init

/-- The state invariant of the spec: `size ≤ capacity`,
`capacity == 0 ⇔ devptr == nullptr`, and the allocation holds exactly
`capacity` elements. -/
def inv (b : DeviceBuffer T) : Prop :=
  b._size ≤ b.capacity ∧ (b.capacity = 0 ↔ b.devptr = none) ∧ b.devData.length = b.capacity

instance (b : DeviceBuffer T) : Decidable b.inv := by unfold inv; infer_instance

end DeviceBuffer

/-! ### HostBuffer -/

/-- `HostBuffer<T>`: element count, capacity, exclusively owned pinned-host
pointer, and the contents of the allocation. -/
structure HostBuffer (T : Type) where
  capacity : Nat
  _size    : Nat
  hostptr  : Option Nat
  hostData : List T
deriving DecidableEq

namespace HostBuffer

variable {T : Type} [Inhabited T]

def init : HostBuffer T := ⟨0, 0, none, []⟩

def size (b : HostBuffer T) : Nat := b._size

/-- Indexed read through `hostPtr()` / `operator[]`. -/
def read (b : HostBuffer T) (i : Nat) : T := b.hostData.getD i default

/-- Indexed write through `operator[]`. -/
def write (b : HostBuffer T) (i : Nat) (v : T) : HostBuffer T :=
  { b with hostData := b.hostData.set i v }

/-- `HostBuffer::_resize(n, copy)`: same sizing rule as the device version;
the old-contents copy is a synchronous host `memcpy`. -/
def _resize (b : HostBuffer T) (n : Nat) (copy : Bool) (m : Mem) :
    HostBuffer T × Mem × List Ev :=
  let hold := b.hostptr
  let oldsize := b._size
  if n ≤ b.capacity then ({ b with _size := n }, m, [])
  else
    let cap := growCapacity n
    let am := m.allocHost
    let fresh : List T := List.replicate cap default
    let doCopy := copy ∧ hold ≠ none ∧ 0 < oldsize
    let data := if doCopy then overwriteFirst fresh b.hostData oldsize else fresh
    (⟨cap, n, some am.2, data⟩,
     am.1.freeHost hold,
     [Ev.mallocHost] ++ (if doCopy then [Ev.hostMemcpy] else [])
       ++ (if hold = none then [] else [Ev.freeHost]))

/-- `resize(n)`: keep stored data. -/
def resize (b : HostBuffer T) (n : Nat) (m : Mem) : HostBuffer T × Mem × List Ev :=
  b._resize n true m

/-- `resize_anew(n)`. -/
def resize_anew (b : HostBuffer T) (n : Nat) (m : Mem) : HostBuffer T × Mem × List Ev :=
  b._resize n false m

/-- `HostBuffer(n)`. -/
def new (n : Nat) (m : Mem) : HostBuffer T × Mem × List Ev :=
  (init : HostBuffer T).resize_anew n m

/-- `clear()`: `memset(hostptr, 0, sizeof(T) * _size)` (no size guard in the
source; a zero-length `memset` moves no bytes). -/
def clear [Zero T] (b : HostBuffer T) : HostBuffer T × List Ev :=
  ({ b with hostData := overwriteFirst b.hostData (List.replicate b._size 0) b._size },
   [Ev.hostMemset])

/-- `copy(cont)` for a host-pointer source of the same element type: a
*preserving* `resize(cont.size())` followed by an unconditional host
`memcpy` of `_size` elements. -/
def copyH (b : HostBuffer T) (cont : HostBuffer T) (m : Mem) :
    HostBuffer T × Mem × List Ev :=
  let r := b.resize cont.size m
  ({ r.1 with hostData := overwriteFirst r.1.hostData cont.hostData r.1._size },
   r.2.1, r.2.2 ++ [Ev.hostMemcpy])

/-- `copy(cont, stream)` for a device-pointer source of the same element
type: a preserving `resize`, then an asynchronous device-to-host
`cudaMemcpyAsync` when `_size > 0`. -/
def copyD (b : HostBuffer T) (cont : DeviceBuffer T) (m : Mem) :
    HostBuffer T × Mem × List Ev :=
  let r := b.resize cont.size m
  if 0 < r.1._size then
    ({ r.1 with hostData := overwriteFirst r.1.hostData cont.devData r.1._size },
     r.2.1, r.2.2 ++ [Ev.memcpyAsync])
  else r

/-- Move assignment `operator=(HostBuffer&&)` with `this != &b`. -/
def moveAssign (dst src : HostBuffer T) (m : Mem) :
    HostBuffer T × HostBuffer T × Mem × List Ev :=
  (⟨src.capacity, src._size, src.hostptr, src.hostData⟩,
   ⟨0, 0, none, []⟩,
   m.freeHost dst.hostptr,
   if dst.hostptr = none then [] else [Ev.freeHost])

/-- The destructor: `cudaFreeHost(hostptr)` (a null pointer is a no-op). -/
def destroy (b : HostBuffer T) (m : Mem) : Mem × List Ev :=
  (m.freeHost b.hostptr, if b.hostptr = none then [] else [Ev.freeHost])

/-- The spec invariant for the host-only buffer. -/
def inv (b : HostBuffer T) : Prop :=
  b._size ≤ b.capacity ∧ (b.capacity = 0 ↔ b.hostptr = none) ∧ b.hostData.length = b.capacity

instance (b : HostBuffer T) : Decidable b.inv := by unfold inv; infer_instance

end HostBuffer

/-- A type-erased view of a `GPUcontainer` source, as consumed by
`HostBuffer::genericCopy`: its element byte size, its element count, and its
device bytes reinterpreted as destination elements (byte-level
reinterpretation itself is not representable in a typed model). -/
structure ErasedSource (T : Type) where
  datatype_size : Nat
  size          : Nat
  raw           : List T

namespace HostBuffer

variable {T : Type} [Inhabited T]

/-- `genericCopy(cont, stream)`: dies (returns `none`) when the source
element size is not divisible by the destination element size `sizeofT`;
otherwise a preserving `resize(cont->size() * typeSizeFactor)` followed by an
asynchronous device-to-host copy of `_size` elements. -/
def genericCopy (b : HostBuffer T) (sizeofT : Nat) (cont : ErasedSource T) (m : Mem) :
    Option (HostBuffer T × Mem × List Ev) :=
  if cont.datatype_size % sizeofT ≠ 0 then none
  else
    let typeSizeFactor := cont.datatype_size / sizeofT
    let r := b.resize (cont.size * typeSizeFactor) m
    if 0 < r.1._size then
      some ({ r.1 with hostData := overwriteFirst r.1.hostData cont.raw r.1._size },
            r.2.1, r.2.2 ++ [Ev.memcpyAsync])
    else some r

end HostBuffer

/-! ### PinnedBuffer -/

/-- `PinnedBuffer<T>` (the dual buffer): one capacity and size, an owned
pinned-host allocation and an owned device allocation, with independent
contents. -/
structure PinnedBuffer (T : Type) where
  capacity : Nat
  _size    : Nat
  hostptr  : Option Nat
  devptr   : Option Nat
  hostData : List T
  devData  : List T
deriving DecidableEq

namespace PinnedBuffer

variable {T : Type} [Inhabited T]

def init : PinnedBuffer T := ⟨0, 0, none, none, [], []⟩

def size (b : PinnedBuffer T) : Nat := b._size

/-- Indexed read of the host side (`operator[]` / `hostPtr()`). -/
def readHost (b : PinnedBuffer T) (i : Nat) : T := b.hostData.getD i default

/-- Read of the device side through `devPtr()` (as a kernel would). -/
def readDev (b : PinnedBuffer T) (i : Nat) : T := b.devData.getD i default

/-- Indexed write to the host side (`operator[]` / writes through
`hostPtr()`). -/
def writeHost (b : PinnedBuffer T) (i : Nat) (v : T) : PinnedBuffer T :=
  { b with hostData := b.hostData.set i v }

/-- A device-side store through `devPtr()`, as performed by a kernel; not a
member of the class, but the way device contents are produced. -/
def writeDev (b : PinnedBuffer T) (i : Nat) (v : T) : PinnedBuffer T :=
  { b with devData := b.devData.set i v }

/-- Fill the first `_size` host elements with the values `v` (a sequence of
`operator[]` stores). -/
def fillHost (b : PinnedBuffer T) (v : List T) : PinnedBuffer T :=
  { b with hostData := overwriteFirst b.hostData v b._size }

/-- `PinnedBuffer::_resize(n, stream, copy)`: both allocations are grown
together; with `copy`, the old contents of *both* sides are copied (host by
`memcpy`, device by `cudaMemcpyAsync` followed by a
`cudaStreamSynchronize`). -/
def _resize (b : PinnedBuffer T) (n : Nat) (copy : Bool) (m : Mem) :
    PinnedBuffer T × Mem × List Ev :=
  let hold := b.hostptr
  let dold := b.devptr
  let oldsize := b._size
  if n ≤ b.capacity then ({ b with _size := n }, m, [])
  else
    let cap := growCapacity n
    let amh := m.allocHost
    let amd := amh.1.allocDev
    let freshH : List T := List.replicate cap default
    let freshD : List T := List.replicate cap default
    let doCopy := copy ∧ hold ≠ none ∧ 0 < oldsize
    let hdata := if doCopy then overwriteFirst freshH b.hostData oldsize else freshH
    let ddata := if doCopy then overwriteFirst freshD b.devData oldsize else freshD
    (⟨cap, n, some amh.2, some amd.2, hdata, ddata⟩,
     (amd.1.freeHost hold).freeDev dold,
     [Ev.mallocHost, Ev.mallocDev]
       ++ (if doCopy then [Ev.hostMemcpy, Ev.memcpyAsync, Ev.streamSync] else [])
       ++ (if hold = none then [] else [Ev.freeHost])
       ++ (if dold = none then [] else [Ev.freeDev]))

/-- `resize(n, stream)`: keep stored data. -/
def resize (b : PinnedBuffer T) (n : Nat) (m : Mem) : PinnedBuffer T × Mem × List Ev :=
  b._resize n true m

/-- `resize_anew(n)`. -/
def resize_anew (b : PinnedBuffer T) (n : Nat) (m : Mem) : PinnedBuffer T × Mem × List Ev :=
  b._resize n false m

/-- `PinnedBuffer(n)`. -/
def new (n : Nat) (m : Mem) : PinnedBuffer T × Mem × List Ev :=
  (init : PinnedBuffer T).resize_anew n m

/-- `downloadFromDevice(stream, synch)`: device-to-host `cudaMemcpyAsync`
when `_size > 0`, then `cudaStreamSynchronize` iff `synch == Synch`. -/
def downloadFromDevice (b : PinnedBuffer T) (synch : ContainersSynch) :
    PinnedBuffer T × List Ev :=
  let r :=
    if 0 < b._size then
      ({ b with hostData := overwriteFirst b.hostData b.devData b._size }, [Ev.memcpyAsync])
    else (b, ([] : List Ev))
  (r.1, r.2 ++ if synch = ContainersSynch.Synch then [Ev.streamSync] else [])

/-- `uploadToDevice(stream)`: host-to-device `cudaMemcpyAsync` when
`_size > 0`. -/
def uploadToDevice (b : PinnedBuffer T) : PinnedBuffer T × List Ev :=
  if 0 < b._size then
    ({ b with devData := overwriteFirst b.devData b.hostData b._size }, [Ev.memcpyAsync])
  else (b, [])

/-- `clearDevice(stream)`: zero the first `_size` device elements. -/
def clearDevice [Zero T] (b : PinnedBuffer T) : PinnedBuffer T × List Ev :=
  if 0 < b._size then
    ({ b with devData := overwriteFirst b.devData (List.replicate b._size 0) b._size },
     [Ev.memsetAsync])
  else (b, [])

/-- `clearHost()`: zero the first `_size` host elements. -/
def clearHost [Zero T] (b : PinnedBuffer T) : PinnedBuffer T × List Ev :=
  if 0 < b._size then
    ({ b with hostData := overwriteFirst b.hostData (List.replicate b._size 0) b._size },
     [Ev.hostMemset])
  else (b, [])

/-- `clear(stream)`: `clearDevice(stream); clearHost();`. -/
def clear [Zero T] (b : PinnedBuffer T) : PinnedBuffer T × List Ev :=
  let r := b.clearDevice
  let r' := r.1.clearHost
  (r'.1, r.2 ++ r'.2)

/-- `copy(const DeviceBuffer<T>&, stream)`: `resize_anew`, then an
asynchronous device-to-device copy into the *device* side. -/
def copyD (b : PinnedBuffer T) (cont : DeviceBuffer T) (m : Mem) :
    PinnedBuffer T × Mem × List Ev :=
  let r := b.resize_anew cont.size m
  if 0 < r.1._size then
    ({ r.1 with devData := overwriteFirst r.1.devData cont.devData r.1._size },
     r.2.1, r.2.2 ++ [Ev.memcpyAsync])
  else r

/-- `copy(const HostBuffer<T>&)`: `resize_anew(cont.size())`, then an
unconditional host `memcpy` from the source's host data into the *host*
side.  The device side is not written. -/
def copyH (b : PinnedBuffer T) (cont : HostBuffer T) (m : Mem) :
    PinnedBuffer T × Mem × List Ev :=
  let r := b.resize_anew cont.size m
  ({ r.1 with hostData := overwriteFirst r.1.hostData cont.hostData r.1._size },
   r.2.1, r.2.2 ++ [Ev.hostMemcpy])

/-- `copy(const PinnedBuffer<T>&, stream)`: `resize_anew`, then (when
`_size > 0`) an asynchronous device-to-device copy and a host `memcpy`. -/
def copyP (b : PinnedBuffer T) (cont : PinnedBuffer T) (m : Mem) :
    PinnedBuffer T × Mem × List Ev :=
  let r := b.resize_anew cont.size m
  if 0 < r.1._size then
    ({ r.1 with
        devData := overwriteFirst r.1.devData cont.devData r.1._size,
        hostData := overwriteFirst r.1.hostData cont.hostData r.1._size },
     r.2.1, r.2.2 ++ [Ev.memcpyAsync, Ev.hostMemcpy])
  else r

/-- `copyDeviceOnly(const PinnedBuffer<T>&, stream)`. -/
def copyDeviceOnly (b : PinnedBuffer T) (cont : PinnedBuffer T) (m : Mem) :
    PinnedBuffer T × Mem × List Ev :=
  let r := b.resize_anew cont.size m
  if 0 < r.1._size then
    ({ r.1 with devData := overwriteFirst r.1.devData cont.devData r.1._size },
     r.2.1, r.2.2 ++ [Ev.memcpyAsync])
  else r

/-- The synchronous `copy(const PinnedBuffer<T>&)`: blocking `cudaMemcpy` on
the device side plus a host `memcpy`. -/
def copyPSync (b : PinnedBuffer T) (cont : PinnedBuffer T) (m : Mem) :
    PinnedBuffer T × Mem × List Ev :=
  let r := b.resize_anew cont.size m
  if 0 < r.1._size then
    ({ r.1 with
        devData := overwriteFirst r.1.devData cont.devData r.1._size,
        hostData := overwriteFirst r.1.hostData cont.hostData r.1._size },
     r.2.1, r.2.2 ++ [Ev.memcpySync, Ev.hostMemcpy])
  else r

/-- Move assignment `operator=(PinnedBuffer&&)` with `this != &b` (the source
resets both pointers; the destination's previous allocations are not freed by
this operator). -/
def moveAssign (dst src : PinnedBuffer T) (m : Mem) :
    PinnedBuffer T × PinnedBuffer T × Mem × List Ev :=
  (⟨src.capacity, src._size, src.hostptr, src.devptr, src.hostData, src.devData⟩,
   ⟨0, 0, none, none, [], []⟩,
   m, [])

/-- The destructor:
`if (devptr != nullptr) { cudaFreeHost(hostptr); cudaFree(devptr); }`. -/
def destroy (b : PinnedBuffer T) (m : Mem) : Mem × List Ev :=
  if b.devptr = none then (m, [])
  else ((m.freeHost b.hostptr).freeDev b.devptr, [Ev.freeHost, Ev.freeDev])

/-- `produce()`: a fresh empty sibling. -/
def produce (_b : PinnedBuffer T) : PinnedBuffer T := init

/-- The spec invariant for the dual buffer: `size ≤ capacity`, the two
pointers are null together or non-null together (`capacity == 0` exactly
when unallocated), and each allocation holds exactly `capacity` elements. -/
def inv (b : PinnedBuffer T) : Prop :=
  b._size ≤ b.capacity ∧ (b.capacity = 0 ↔ b.devptr = none) ∧
    (b.hostptr = none ↔ b.devptr = none) ∧
    b.hostData.length = b.capacity ∧ b.devData.length = b.capacity

instance (b : PinnedBuffer T) : Decidable b.inv := by unfold inv; infer_instance

end PinnedBuffer

/-! ### The operations of each container, reified

One constructor per public mutating operation, so that statements can
quantify over "every operation of the container". -/

inductive DevOp (T : Type) where
  | resizeOp (n : Nat)
  | resizeAnewOp (n : Nat)
  | clearOp
  | copyDOp (cont : DeviceBuffer T)
  | copyHOp (srcSize : Nat) (srcHost : List T)
  | copySyncOp (cont : DeviceBuffer T)

def DevOp.apply {T : Type} [Inhabited T] [Zero T] :
    DevOp T → DeviceBuffer T → Mem → DeviceBuffer T × Mem × List Ev
  | .resizeOp n, b, m => b.resize n m
  | .resizeAnewOp n, b, m => b.resize_anew n m
  | .clearOp, b, m => ((b.clearDevice).1, m, (b.clearDevice).2)
  | .copyDOp c, b, m => b.copyD c m
  | .copyHOp s l, b, m => b.copyH s l m
  | .copySyncOp c, b, m => b.copySync c m

inductive HostOp (T : Type) where
  | resizeOp (n : Nat)
  | resizeAnewOp (n : Nat)
  | clearOp
  | writeOp (i : Nat) (v : T)
  | copyHOp (cont : HostBuffer T)
  | copyDOp (cont : DeviceBuffer T)

def HostOp.apply {T : Type} [Inhabited T] [Zero T] :
    HostOp T → HostBuffer T → Mem → HostBuffer T × Mem × List Ev
  | .resizeOp n, b, m => b.resize n m
  | .resizeAnewOp n, b, m => b.resize_anew n m
  | .clearOp, b, m => ((b.clear).1, m, (b.clear).2)
  | .writeOp i v, b, m => (b.write i v, m, [])
  | .copyHOp c, b, m => b.copyH c m
  | .copyDOp c, b, m => b.copyD c m

inductive PinOp (T : Type) where
  | resizeOp (n : Nat)
  | resizeAnewOp (n : Nat)
  | downloadOp (synch : ContainersSynch)
  | uploadOp
  | clearOp
  | clearDeviceOp
  | clearHostOp
  | copyDOp (cont : DeviceBuffer T)
  | copyHOp (cont : HostBuffer T)
  | copyPOp (cont : PinnedBuffer T)
  | copyDeviceOnlyOp (cont : PinnedBuffer T)
  | copyPSyncOp (cont : PinnedBuffer T)
  | writeHostOp (i : Nat) (v : T)
  | writeDevOp (i : Nat) (v : T)
  | fillHostOp (v : List T)

def PinOp.apply {T : Type} [Inhabited T] [Zero T] :
    PinOp T → PinnedBuffer T → Mem → PinnedBuffer T × Mem × List Ev
  | .resizeOp n, b, m => b.resize n m
  | .resizeAnewOp n, b, m => b.resize_anew n m
  | .downloadOp s, b, m => ((b.downloadFromDevice s).1, m, (b.downloadFromDevice s).2)
  | .uploadOp, b, m => ((b.uploadToDevice).1, m, (b.uploadToDevice).2)
  | .clearOp, b, m => ((b.clear).1, m, (b.clear).2)
  | .clearDeviceOp, b, m => ((b.clearDevice).1, m, (b.clearDevice).2)
  | .clearHostOp, b, m => ((b.clearHost).1, m, (b.clearHost).2)
  | .copyDOp c, b, m => b.copyD c m
  | .copyHOp c, b, m => b.copyH c m
  | .copyPOp c, b, m => b.copyP c m
  | .copyDeviceOnlyOp c, b, m => b.copyDeviceOnly c m
  | .copyPSyncOp c, b, m => b.copyPSync c m
  | .writeHostOp i v, b, m => (b.writeHost i v, m, [])
  | .writeDevOp i v, b, m => (b.writeDev i v, m, [])
  | .fillHostOp v, b, m => (b.fillHost v, m, [])

/-- The events that block the submitting thread at stream level: an explicit
`cudaStreamSynchronize` or a synchronous `cudaMemcpy`. -/
def blockingEv (e : Ev) : Prop := e = Ev.streamSync ∨ e = Ev.memcpySync

/-- The operations documented as synchronous: the stream-less
`copy(const DeviceBuffer<T>&)`. -/
def DevOp.isSync {T : Type} : DevOp T → Bool
  | .copySyncOp _ => true
  | _ => false

/-- The operations documented as synchronous: the stream-less
`copy(const PinnedBuffer<T>&)` and `downloadFromDevice` with the `Synch`
flag. -/
def PinOp.isSync {T : Type} : PinOp T → Bool
  | .copyPSyncOp _ => true
  | .downloadOp ContainersSynch.Synch => true
  | _ => false

/-- A sequence of `_resize` calls (requested size, preserve flag), threaded
through the allocation state. -/
def DeviceBuffer.resizeSeq {T : Type} [Inhabited T] (b : DeviceBuffer T) (m : Mem) :
    List (Nat × Bool) → DeviceBuffer T × Mem
  | [] => (b, m)
  | q :: l => DeviceBuffer.resizeSeq ((b._resize q.1 q.2 m).1) ((b._resize q.1 q.2 m).2.1) l

def HostBuffer.resizeSeq {T : Type} [Inhabited T] (b : HostBuffer T) (m : Mem) :
    List (Nat × Bool) → HostBuffer T × Mem
  | [] => (b, m)
  | q :: l => HostBuffer.resizeSeq ((b._resize q.1 q.2 m).1) ((b._resize q.1 q.2 m).2.1) l

def PinnedBuffer.resizeSeq {T : Type} [Inhabited T] (b : PinnedBuffer T) (m : Mem) :
    List (Nat × Bool) → PinnedBuffer T × Mem
  | [] => (b, m)
  | q :: l => PinnedBuffer.resizeSeq ((b._resize q.1 q.2 m).1) ((b._resize q.1 q.2 m).2.1) l

/-- The operations that touch exactly one side of a dual buffer and are not
transfers: host-side stores and `clearHost()`, device-side stores (kernel
writes through `devPtr()`) and `clearDevice(stream)`. -/
inductive HDOp (T : Type) where
  | wHost (i : Nat) (v : T)
  | wDev (i : Nat) (v : T)
  | cHost
  | cDev

def HDOp.isHostSide {T : Type} : HDOp T → Bool
  | .wHost _ _ => true
  | .cHost => true
  | _ => false

def HDOp.app {T : Type} [Inhabited T] [Zero T] : HDOp T → PinnedBuffer T → PinnedBuffer T
  | .wHost i v, b => b.writeHost i v
  | .wDev i v, b => b.writeDev i v
  | .cHost, b => (b.clearHost).1
  | .cDev, b => (b.clearDevice).1

def HDOp.run {T : Type} [Inhabited T] [Zero T] (b : PinnedBuffer T) :
    List (HDOp T) → PinnedBuffer T
  | [] => b
  | op :: l => HDOp.run (op.app b) l

/-! ### Properties of the growth formula -/

theorem Frac.toRat_nonneg (f : Frac) : 0 ≤ f.toRat := by
  unfold Frac.toRat; positivity

theorem Frac.toRat_mul (a b : Frac) : (a.mul b).toRat = a.toRat * b.toRat := by
  unfold Frac.toRat Frac.mul
  push_cast
  rw [div_mul_div_comm]

theorem Frac.toRat_addNat (f : Frac) (k : Nat) (hd : 0 < f.den) :
    (f.addNat k).toRat = f.toRat + k := by
  unfold Frac.toRat Frac.addNat
  have : ((f.den : ℚ)) ≠ 0 := by positivity
  field_simp

theorem Frac.den_le_num_of_one_le (f : Frac) (hd : 0 < f.den) (h : 1 ≤ f.toRat) :
    f.den ≤ f.num := by
  unfold Frac.toRat at h
  rw [le_div_iff (by positivity)] at h
  exact_mod_cast by simpa using h

theorem Frac.le_ceilN (f : Frac) (hd : 0 < f.den) : f.toRat ≤ (f.ceilN : ℚ) := by
  have hnum : f.num ≤ f.den * f.ceilN := by
    unfold Frac.ceilN
    have h1 := Nat.div_add_mod (f.num + f.den - 1) f.den
    have h2 := Nat.mod_lt (f.num + f.den - 1) hd
    omega
  rw [Nat.mul_comm] at hnum
  unfold Frac.toRat
  rw [div_le_iff₀ (by positivity)]
  exact_mod_cast hnum

theorem log2fuel_pow_le (fuel : Nat) : ∀ n, 1 ≤ n → n ≤ fuel → 2 ^ log2fuel fuel n ≤ n := by
  induction fuel with
  | zero => intro n h1 h2; omega
  | succ f ih =>
    intro n h1 h2
    rw [log2fuel]
    split
    · rename_i h
      have hn2 : 1 ≤ n / 2 := by omega
      have hf : n / 2 ≤ f := by omega
      have := ih (n / 2) hn2 hf
      have : 2 ^ (log2fuel f (n / 2) + 1) = 2 * 2 ^ log2fuel f (n / 2) := by ring
      rw [this]
      omega
    · simpa using h1

theorem floorLog2_pow_le (n : Nat) (h : 1 ≤ n) : 2 ^ floorLog2 n ≤ n :=
  log2fuel_pow_le n n h le_rfl

theorem roundNearest_den_pos (f : Frac) : 0 < (roundNearest f).den := by
  rw [roundNearest]
  split <;> positivity

/-- The rounded significand never drops below the exact one by more than a
half: `2 * sn ≤ 2 * roundAt sn sd * sd + sd`. -/
theorem roundAt_half (sn sd : Nat) (hsd : 0 < sd) :
    2 * sn ≤ 2 * (roundAt sn sd * sd) + sd := by
  have hdm : sd * (sn / sd) + sn % sd = sn := Nat.div_add_mod sn sd
  have hremlt : sn % sd < sd := Nat.mod_lt _ hsd
  have hq : sn / sd * sd = sd * (sn / sd) := Nat.mul_comm _ _
  have hsplit : (sn / sd + 1) * sd = sd * (sn / sd) + sd := by ring
  rw [roundAt]
  split
  · rw [hq]; omega
  · split
    · rw [hsplit]; omega
    · split
      · rw [hq]; omega
      · rw [hsplit]; omega

/-- Round-to-nearest loses at most half an ulp downwards: for `x ≥ 1`,
`x * (1 - 2⁻⁵³) ≤ roundNearest x`. -/
theorem roundNearest_ge (f : Frac) (hd : 0 < f.den) (h1 : f.den ≤ f.num) :
    f.toRat * (1 - 1 / 2 ^ 53) ≤ (roundNearest f).toRat := by
  have hnum : ¬ f.num = 0 := by omega
  rw [roundNearest, if_neg hnum]
  unfold Frac.toRat
  set e := floorLog2 (f.num / f.den) with he
  have hsdpos : 0 < f.den * 2 ^ e := by positivity
  have hkey := roundAt_half (f.num * 2 ^ 52) (f.den * 2 ^ e) hsdpos
  generalize hR : roundAt (f.num * 2 ^ 52) (f.den * 2 ^ e) = R at hkey ⊢
  -- 2^e does not exceed x, hence half an ulp is at most x / 2^53
  have hefloor : 2 ^ e ≤ f.num / f.den := floorLog2_pow_le _ (Nat.one_le_div_iff hd |>.mpr h1)
  have hdQ : (0 : ℚ) < (f.den : ℚ) := by exact_mod_cast hd
  have heQ : (f.den : ℚ) * 2 ^ e ≤ (f.num : ℚ) := by
    have h2 : ((2 : ℚ)) ^ e ≤ ((f.num / f.den : Nat) : ℚ) := by exact_mod_cast hefloor
    have h3 : ((f.num / f.den : Nat) : ℚ) ≤ (f.num : ℚ) / (f.den : ℚ) := Nat.cast_div_le
    rw [mul_comm]
    calc (2 : ℚ) ^ e * f.den ≤ ((f.num : ℚ) / f.den) * f.den := by
          apply mul_le_mul_of_nonneg_right (le_trans h2 h3) (le_of_lt hdQ)
      _ = (f.num : ℚ) := by field_simp
  have hkeyQ : 2 * ((f.num : ℚ) * 2 ^ 52) ≤ 2 * ((R : ℚ) * ((f.den : ℚ) * 2 ^ e)) + (f.den : ℚ) * 2 ^ e := by
    exact_mod_cast hkey
  rw [div_mul_eq_mul_div, div_le_div_iff₀ hdQ (by positivity)]
  push_cast
  nlinarith [heQ, hkeyQ, hdQ]

/-- The conservative estimate dominates the requested size. -/
theorem conservativeEstimate_ge (n : Nat) (hn : 1 ≤ n) : n ≤ conservativeEstimate n := by
  rw [conservativeEstimate]
  have hc : (1 : ℚ) - 1 / 2 ^ 53 ≥ 99 / 100 := by norm_num
  have hnQ : (1 : ℚ) ≤ (n : ℚ) := by exact_mod_cast hn
  have hnQ0 : (0 : ℚ) ≤ (n : ℚ) := by positivity
  -- fl(n)
  have hfln := roundNearest_ge ⟨n, 1⟩ (by norm_num) (by simpa using hn)
  have hflnval : ((Frac.mk n 1).toRat) = (n : ℚ) := by unfold Frac.toRat; simp
  rw [hflnval] at hfln
  have hfln' : (n : ℚ) * (99 / 100) ≤ (roundNearest ⟨n, 1⟩).toRat := by nlinarith
  -- fl(1.1)
  have hfl11 := roundNearest_ge ⟨11, 10⟩ (by norm_num) (by norm_num)
  have hfl11val : ((Frac.mk 11 10).toRat) = 11 / 10 := by unfold Frac.toRat; norm_num
  rw [hfl11val] at hfl11
  have hfl11' : (11 / 10 : ℚ) * (99 / 100) ≤ (roundNearest ⟨11, 10⟩).toRat := by nlinarith
  -- fl(1.1) * fl(n), exact product
  have hprodval : ((roundNearest ⟨11, 10⟩).mul (roundNearest ⟨n, 1⟩)).toRat
      = (roundNearest ⟨11, 10⟩).toRat * (roundNearest ⟨n, 1⟩).toRat := Frac.toRat_mul _ _
  have hprodlb : (n : ℚ) * (11 / 10 * (99 / 100) ^ 2)
      ≤ ((roundNearest ⟨11, 10⟩).mul (roundNearest ⟨n, 1⟩)).toRat := by
    rw [hprodval]
    nlinarith [Frac.toRat_nonneg (roundNearest ⟨n, 1⟩), Frac.toRat_nonneg (roundNearest ⟨11, 10⟩)]
  have hprodden : 0 < ((roundNearest ⟨11, 10⟩).mul (roundNearest ⟨n, 1⟩)).den := by
    unfold Frac.mul
    have := roundNearest_den_pos (⟨11, 10⟩ : Frac)
    have := roundNearest_den_pos (⟨n, 1⟩ : Frac)
    positivity
  have hprodge1 : (1 : ℚ) ≤ ((roundNearest ⟨11, 10⟩).mul (roundNearest ⟨n, 1⟩)).toRat := by
    nlinarith
  -- fl(fl(1.1) * fl(n))
  have hprodr := roundNearest_ge _ hprodden
    (Frac.den_le_num_of_one_le _ hprodden hprodge1)
  have hprodr' : (n : ℚ) * (11 / 10 * (99 / 100) ^ 3)
      ≤ (roundNearest ((roundNearest ⟨11, 10⟩).mul (roundNearest ⟨n, 1⟩))).toRat := by
    nlinarith [Frac.toRat_nonneg ((roundNearest ⟨11, 10⟩).mul (roundNearest ⟨n, 1⟩))]
  -- + 10, exact
  have hsumden : 0 < ((roundNearest ((roundNearest ⟨11, 10⟩).mul (roundNearest ⟨n, 1⟩))).addNat 10).den := by
    unfold Frac.addNat
    exact roundNearest_den_pos _
  have hsumval := Frac.toRat_addNat
    (roundNearest ((roundNearest ⟨11, 10⟩).mul (roundNearest ⟨n, 1⟩))) 10
    (roundNearest_den_pos _)
  have hsumlb : (n : ℚ) * (11 / 10 * (99 / 100) ^ 3) + 10
      ≤ ((roundNearest ((roundNearest ⟨11, 10⟩).mul (roundNearest ⟨n, 1⟩))).addNat 10).toRat := by
    rw [hsumval]
    push_cast
    linarith
  have hsumge1 : (1 : ℚ) ≤ ((roundNearest ((roundNearest ⟨11, 10⟩).mul (roundNearest ⟨n, 1⟩))).addNat 10).toRat := by
    nlinarith [Frac.toRat_nonneg (roundNearest ((roundNearest ⟨11, 10⟩).mul (roundNearest ⟨n, 1⟩)))]
  -- fl(... + 10)
  have hfinr := roundNearest_ge _ hsumden (Frac.den_le_num_of_one_le _ hsumden hsumge1)
  have hfinlb : (n : ℚ) * (11 / 10 * (99 / 100) ^ 4)
      ≤ (roundNearest (((roundNearest ((roundNearest ⟨11, 10⟩).mul (roundNearest ⟨n, 1⟩))).addNat 10))).toRat := by
    nlinarith [hsumlb, hfinr, hnQ0]
  -- ceiling
  have hceil := Frac.le_ceilN
    (roundNearest (((roundNearest ((roundNearest ⟨11, 10⟩).mul (roundNearest ⟨n, 1⟩))).addNat 10)))
    (roundNearest_den_pos _)
  have hfinal : (n : ℚ) ≤
      ((roundNearest (((roundNearest ((roundNearest ⟨11, 10⟩).mul (roundNearest ⟨n, 1⟩))).addNat 10))).ceilN : ℚ) := by
    have hcoef : (1 : ℚ) ≤ 11 / 10 * (99 / 100) ^ 4 := by norm_num
    nlinarith [hfinlb, hceil, hnQ0]
  exact_mod_cast hfinal

/-- Every reallocation capacity dominates the requested size. -/
theorem growCapacity_ge (n : Nat) (hn : 1 ≤ n) : n ≤ growCapacity n := by
  have h1 := conservativeEstimate_ge n hn
  rw [growCapacity]
  omega

theorem growCapacity_dvd (n : Nat) : 128 ∣ growCapacity n := ⟨_, rfl⟩

theorem growCapacity_pos (n : Nat) (hn : 1 ≤ n) : 0 < growCapacity n :=
  Nat.lt_of_lt_of_le hn (growCapacity_ge n hn)

/-! ### Basic list-copy lemmas -/

theorem overwriteFirst_length {T : Type} [Inhabited T] (dst src : List T) (k : Nat)
    (h : k ≤ dst.length) : (overwriteFirst dst src k).length = dst.length := by
  simp only [overwriteFirst, List.length_append, List.length_take, List.length_replicate,
    List.length_drop]
  omega

theorem overwriteFirst_getD {T : Type} [Inhabited T] (dst src : List T) (k i : Nat)
    (hik : i < k) (hks : k ≤ src.length) :
    (overwriteFirst dst src k).getD i default = src.getD i default := by
  unfold overwriteFirst
  have h1 : i < (src.take k ++ List.replicate (k - src.length) default).length := by
    simp only [List.length_append, List.length_take, List.length_replicate]
    omega
  have h2 : i < (src.take k).length := by
    simp only [List.length_take]
    omega
  rw [List.getD_eq_getElem?_getD, List.getD_eq_getElem?_getD,
    List.getElem?_append_left h1, List.getElem?_append_left h2, List.getElem?_take, if_pos hik]

/-! ### Characterisations of `_resize` -/

theorem DeviceBuffer.dev_resize_of_le {T : Type} [Inhabited T] (b : DeviceBuffer T)
    (n : Nat) (c : Bool) (m : Mem) (h : n ≤ b.capacity) :
    b._resize n c m = ({ b with _size := n }, m, []) := by
  simp only [DeviceBuffer._resize, if_pos h]

theorem DeviceBuffer.dev_resize_grow {T : Type} [Inhabited T] (b : DeviceBuffer T)
    (n : Nat) (c : Bool) (m : Mem) (h : b.capacity < n) :
    b._resize n c m =
      (⟨growCapacity n, n, some m.next,
        if c ∧ b.devptr ≠ none ∧ 0 < b._size then
          overwriteFirst (List.replicate (growCapacity n) default) b.devData b._size
        else List.replicate (growCapacity n) default⟩,
       (m.allocDev.1).freeDev b.devptr,
       [Ev.mallocDev] ++ (if c ∧ b.devptr ≠ none ∧ 0 < b._size then [Ev.memcpyAsync] else [])
         ++ (if b.devptr = none then [] else [Ev.freeDev])) := by
  simp only [DeviceBuffer._resize, if_neg (by omega : ¬ n ≤ b.capacity), Mem.allocDev]

theorem HostBuffer.host_resize_of_le {T : Type} [Inhabited T] (b : HostBuffer T)
    (n : Nat) (c : Bool) (m : Mem) (h : n ≤ b.capacity) :
    b._resize n c m = ({ b with _size := n }, m, []) := by
  simp only [HostBuffer._resize, if_pos h]

theorem HostBuffer.host_resize_grow {T : Type} [Inhabited T] (b : HostBuffer T)
    (n : Nat) (c : Bool) (m : Mem) (h : b.capacity < n) :
    b._resize n c m =
      (⟨growCapacity n, n, some m.next,
        if c ∧ b.hostptr ≠ none ∧ 0 < b._size then
          overwriteFirst (List.replicate (growCapacity n) default) b.hostData b._size
        else List.replicate (growCapacity n) default⟩,
       (m.allocHost.1).freeHost b.hostptr,
       [Ev.mallocHost] ++ (if c ∧ b.hostptr ≠ none ∧ 0 < b._size then [Ev.hostMemcpy] else [])
         ++ (if b.hostptr = none then [] else [Ev.freeHost])) := by
  simp only [HostBuffer._resize, if_neg (by omega : ¬ n ≤ b.capacity), Mem.allocHost]

theorem PinnedBuffer.pin_resize_of_le {T : Type} [Inhabited T] (b : PinnedBuffer T)
    (n : Nat) (c : Bool) (m : Mem) (h : n ≤ b.capacity) :
    b._resize n c m = ({ b with _size := n }, m, []) := by
  simp only [PinnedBuffer._resize, if_pos h]

theorem PinnedBuffer.pin_resize_grow {T : Type} [Inhabited T] (b : PinnedBuffer T)
    (n : Nat) (c : Bool) (m : Mem) (h : b.capacity < n) :
    b._resize n c m =
      (⟨growCapacity n, n, some m.next, some (m.next + 1),
        if c ∧ b.hostptr ≠ none ∧ 0 < b._size then
          overwriteFirst (List.replicate (growCapacity n) default) b.hostData b._size
        else List.replicate (growCapacity n) default,
        if c ∧ b.hostptr ≠ none ∧ 0 < b._size then
          overwriteFirst (List.replicate (growCapacity n) default) b.devData b._size
        else List.replicate (growCapacity n) default⟩,
       (((m.allocHost.1).allocDev.1).freeHost b.hostptr).freeDev b.devptr,
       [Ev.mallocHost, Ev.mallocDev]
         ++ (if c ∧ b.hostptr ≠ none ∧ 0 < b._size then
              [Ev.hostMemcpy, Ev.memcpyAsync, Ev.streamSync] else [])
         ++ (if b.hostptr = none then [] else [Ev.freeHost])
         ++ (if b.devptr = none then [] else [Ev.freeDev])) := by
  simp only [PinnedBuffer._resize, if_neg (by omega : ¬ n ≤ b.capacity), Mem.allocHost,
    Mem.allocDev]

/-! ### Invariant preservation -/

theorem DeviceBuffer.dev_inv_resize {T : Type} [Inhabited T] (b : DeviceBuffer T)
    (n : Nat) (c : Bool) (m : Mem) (h : b.inv) : ((b._resize n c m).1).inv := by
  obtain ⟨h1, h2, h3⟩ := h
  by_cases hle : n ≤ b.capacity
  · rw [DeviceBuffer.dev_resize_of_le b n c m hle]
    exact ⟨hle, h2, h3⟩
  · push_neg at hle
    rw [DeviceBuffer.dev_resize_grow b n c m hle]
    have hn1 : 1 ≤ n := by omega
    have hcap := growCapacity_ge n hn1
    have hpos := growCapacity_pos n hn1
    refine ⟨hcap, by simp; omega, ?_⟩
    simp only
    split
    · rw [overwriteFirst_length]
      · simp
      · simp
        omega
    · simp

theorem DeviceBuffer.dev_inv_setData {T : Type} [Inhabited T] (b : DeviceBuffer T)
    (src : List T) (h : b.inv) :
    ({ b with devData := overwriteFirst b.devData src b._size } : DeviceBuffer T).inv := by
  obtain ⟨h1, h2, h3⟩ := h
  refine ⟨h1, h2, ?_⟩
  simpa [overwriteFirst_length b.devData src b._size (by omega)] using h3

theorem HostBuffer.host_inv_resize {T : Type} [Inhabited T] (b : HostBuffer T)
    (n : Nat) (c : Bool) (m : Mem) (h : b.inv) : ((b._resize n c m).1).inv := by
  obtain ⟨h1, h2, h3⟩ := h
  by_cases hle : n ≤ b.capacity
  · rw [HostBuffer.host_resize_of_le b n c m hle]
    exact ⟨hle, h2, h3⟩
  · push_neg at hle
    rw [HostBuffer.host_resize_grow b n c m hle]
    have hn1 : 1 ≤ n := by omega
    have hcap := growCapacity_ge n hn1
    have hpos := growCapacity_pos n hn1
    refine ⟨hcap, by simp; omega, ?_⟩
    simp only
    split
    · rw [overwriteFirst_length]
      · simp
      · simp
        omega
    · simp

theorem HostBuffer.host_inv_setData {T : Type} [Inhabited T] (b : HostBuffer T)
    (src : List T) (h : b.inv) :
    ({ b with hostData := overwriteFirst b.hostData src b._size } : HostBuffer T).inv := by
  obtain ⟨h1, h2, h3⟩ := h
  refine ⟨h1, h2, ?_⟩
  simpa [overwriteFirst_length b.hostData src b._size (by omega)] using h3

theorem PinnedBuffer.pin_inv_resize {T : Type} [Inhabited T] (b : PinnedBuffer T)
    (n : Nat) (c : Bool) (m : Mem) (h : b.inv) : ((b._resize n c m).1).inv := by
  obtain ⟨h1, h2, h3, h4, h5⟩ := h
  by_cases hle : n ≤ b.capacity
  · rw [PinnedBuffer.pin_resize_of_le b n c m hle]
    exact ⟨hle, h2, h3, h4, h5⟩
  · push_neg at hle
    rw [PinnedBuffer.pin_resize_grow b n c m hle]
    have hn1 : 1 ≤ n := by omega
    have hcap := growCapacity_ge n hn1
    have hpos := growCapacity_pos n hn1
    refine ⟨hcap, by simp; omega, by simp, ?_, ?_⟩ <;> simp only <;> split
    · rw [overwriteFirst_length]
      · simp
      · simp
        omega
    · simp
    · rw [overwriteFirst_length]
      · simp
      · simp
        omega
    · simp

theorem PinnedBuffer.inv_setHost {T : Type} [Inhabited T] (b : PinnedBuffer T)
    (src : List T) (h : b.inv) :
    ({ b with hostData := overwriteFirst b.hostData src b._size } : PinnedBuffer T).inv := by
  obtain ⟨h1, h2, h3, h4, h5⟩ := h
  refine ⟨h1, h2, h3, ?_, h5⟩
  simpa [overwriteFirst_length b.hostData src b._size (by omega)] using h4

theorem PinnedBuffer.inv_setDev {T : Type} [Inhabited T] (b : PinnedBuffer T)
    (src : List T) (h : b.inv) :
    ({ b with devData := overwriteFirst b.devData src b._size } : PinnedBuffer T).inv := by
  obtain ⟨h1, h2, h3, h4, h5⟩ := h
  refine ⟨h1, h2, h3, h4, ?_⟩
  simpa [overwriteFirst_length b.devData src b._size (by omega)] using h5

theorem PinnedBuffer.inv_setBoth {T : Type} [Inhabited T] (b : PinnedBuffer T)
    (srcH srcD : List T) (h : b.inv) :
    ({ b with hostData := overwriteFirst b.hostData srcH b._size,
              devData := overwriteFirst b.devData srcD b._size } : PinnedBuffer T).inv := by
  obtain ⟨h1, h2, h3, h4, h5⟩ := h
  refine ⟨h1, h2, h3, ?_, ?_⟩
  · simpa [overwriteFirst_length b.hostData srcH b._size (by omega)] using h4
  · simpa [overwriteFirst_length b.devData srcD b._size (by omega)] using h5

theorem DeviceBuffer.dev_inv_init {T : Type} : (DeviceBuffer.init : DeviceBuffer T).inv :=
  ⟨Nat.le_refl 0, by simp [DeviceBuffer.init], rfl⟩

theorem HostBuffer.host_inv_init {T : Type} : (HostBuffer.init : HostBuffer T).inv :=
  ⟨Nat.le_refl 0, by simp [HostBuffer.init], rfl⟩

theorem PinnedBuffer.pin_inv_init {T : Type} : (PinnedBuffer.init : PinnedBuffer T).inv :=
  ⟨Nat.le_refl 0, by simp [PinnedBuffer.init], by simp [PinnedBuffer.init], rfl, rfl⟩

theorem PinnedBuffer.inv_clearDevice {T : Type} [Inhabited T] [Zero T] (b : PinnedBuffer T)
    (h : b.inv) : ((b.clearDevice).1).inv := by
  rw [PinnedBuffer.clearDevice]
  split
  · exact PinnedBuffer.inv_setDev b _ h
  · exact h

theorem PinnedBuffer.inv_clearHost {T : Type} [Inhabited T] [Zero T] (b : PinnedBuffer T)
    (h : b.inv) : ((b.clearHost).1).inv := by
  rw [PinnedBuffer.clearHost]
  split
  · exact PinnedBuffer.inv_setHost b _ h
  · exact h

theorem PinnedBuffer.clearDevice_size {T : Type} [Inhabited T] [Zero T] (b : PinnedBuffer T) :
    ((b.clearDevice).1)._size = b._size := by
  rw [PinnedBuffer.clearDevice]
  split <;> rfl

/-! ### The claims -/

/-- C2: every operation of every container preserves the state invariant
(`size ≤ capacity`, `capacity = 0` iff the owned pointer is null, the
allocation holds exactly `capacity` elements; for the dual buffer the two
pointers are null together); a successful `genericCopy` preserves it; both
results of a move preserve it; construction establishes it; and construction
with size 0 allocates nothing and leaves all fields zero/null. -/
theorem spec_C2 (T : Type) [Inhabited T] [Zero T] :
    (∀ (op : DevOp T) (b : DeviceBuffer T) (m : Mem), b.inv → ((op.apply b m).1).inv) ∧
    (∀ (op : HostOp T) (b : HostBuffer T) (m : Mem), b.inv → ((op.apply b m).1).inv) ∧
    (∀ (op : PinOp T) (b : PinnedBuffer T) (m : Mem), b.inv → ((op.apply b m).1).inv) ∧
    (∀ (s : Nat) (cont : ErasedSource T) (b : HostBuffer T) (m : Mem)
        (r : HostBuffer T × Mem × List Ev),
      b.inv → b.genericCopy s cont m = some r → r.1.inv) ∧
    (∀ (dst src : DeviceBuffer T) (m : Mem), src.inv →
      (DeviceBuffer.moveAssign dst src m).1.inv ∧ (DeviceBuffer.moveAssign dst src m).2.1.inv) ∧
    (∀ (dst src : HostBuffer T) (m : Mem), src.inv →
      (HostBuffer.moveAssign dst src m).1.inv ∧ (HostBuffer.moveAssign dst src m).2.1.inv) ∧
    (∀ (dst src : PinnedBuffer T) (m : Mem), src.inv →
      (PinnedBuffer.moveAssign dst src m).1.inv ∧ (PinnedBuffer.moveAssign dst src m).2.1.inv) ∧
    (∀ (n : Nat) (m : Mem), ((DeviceBuffer.new n m : DeviceBuffer T × Mem × List Ev).1).inv) ∧
    (∀ (n : Nat) (m : Mem), ((HostBuffer.new n m : HostBuffer T × Mem × List Ev).1).inv) ∧
    (∀ (n : Nat) (m : Mem), ((PinnedBuffer.new n m : PinnedBuffer T × Mem × List Ev).1).inv) ∧
    (∀ m : Mem, (DeviceBuffer.new 0 m : DeviceBuffer T × Mem × List Ev)
      = (DeviceBuffer.init, m, [])) ∧
    (∀ m : Mem, (HostBuffer.new 0 m : HostBuffer T × Mem × List Ev)
      = (HostBuffer.init, m, [])) ∧
    (∀ m : Mem, (PinnedBuffer.new 0 m : PinnedBuffer T × Mem × List Ev)
      = (PinnedBuffer.init, m, [])) := by
  refine ⟨?_, ?_, ?_, ?_, ?_, ?_, ?_, ?_, ?_, ?_, ?_, ?_, ?_⟩
  · intro op b m h
    cases op with
    | resizeOp n => exact DeviceBuffer.dev_inv_resize b n true m h
    | resizeAnewOp n => exact DeviceBuffer.dev_inv_resize b n false m h
    | clearOp =>
        simp only [DevOp.apply]
        rw [DeviceBuffer.clearDevice]
        split
        · exact DeviceBuffer.dev_inv_setData b _ h
        · exact h
    | copyDOp c =>
        simp only [DevOp.apply, DeviceBuffer.copyD]
        split
        · exact DeviceBuffer.dev_inv_setData _ _ (DeviceBuffer.dev_inv_resize b c.size false m h)
        · exact DeviceBuffer.dev_inv_resize b c.size false m h
    | copyHOp s l =>
        simp only [DevOp.apply, DeviceBuffer.copyH]
        split
        · exact DeviceBuffer.dev_inv_setData _ _ (DeviceBuffer.dev_inv_resize b s false m h)
        · exact DeviceBuffer.dev_inv_resize b s false m h
    | copySyncOp c =>
        simp only [DevOp.apply, DeviceBuffer.copySync]
        split
        · exact DeviceBuffer.dev_inv_setData _ _ (DeviceBuffer.dev_inv_resize b c.size false m h)
        · exact DeviceBuffer.dev_inv_resize b c.size false m h
  · intro op b m h
    cases op with
    | resizeOp n => exact HostBuffer.host_inv_resize b n true m h
    | resizeAnewOp n => exact HostBuffer.host_inv_resize b n false m h
    | clearOp =>
        simp only [HostOp.apply]
        rw [HostBuffer.clear]
        exact HostBuffer.host_inv_setData b _ h
    | writeOp i v =>
        simp only [HostOp.apply, HostBuffer.write]
        obtain ⟨h1, h2, h3⟩ := h
        exact ⟨h1, h2, by simpa using h3⟩
    | copyHOp c =>
        simp only [HostOp.apply, HostBuffer.copyH]
        exact HostBuffer.host_inv_setData _ _ (HostBuffer.host_inv_resize b c.size true m h)
    | copyDOp c =>
        simp only [HostOp.apply, HostBuffer.copyD]
        split
        · exact HostBuffer.host_inv_setData _ _ (HostBuffer.host_inv_resize b c.size true m h)
        · exact HostBuffer.host_inv_resize b c.size true m h
  · intro op b m h
    cases op with
    | resizeOp n => exact PinnedBuffer.pin_inv_resize b n true m h
    | resizeAnewOp n => exact PinnedBuffer.pin_inv_resize b n false m h
    | downloadOp s =>
        simp only [PinOp.apply, PinnedBuffer.downloadFromDevice]
        split
        · exact PinnedBuffer.inv_setHost b _ h
        · exact h
    | uploadOp =>
        simp only [PinOp.apply, PinnedBuffer.uploadToDevice]
        split
        · exact PinnedBuffer.inv_setDev b _ h
        · exact h
    | clearOp =>
        simp only [PinOp.apply, PinnedBuffer.clear]
        exact PinnedBuffer.inv_clearHost _ (PinnedBuffer.inv_clearDevice b h)
    | clearDeviceOp =>
        simp only [PinOp.apply]
        exact PinnedBuffer.inv_clearDevice b h
    | clearHostOp =>
        simp only [PinOp.apply]
        exact PinnedBuffer.inv_clearHost b h
    | copyDOp c =>
        simp only [PinOp.apply, PinnedBuffer.copyD]
        split
        · exact PinnedBuffer.inv_setDev _ _ (PinnedBuffer.pin_inv_resize b c.size false m h)
        · exact PinnedBuffer.pin_inv_resize b c.size false m h
    | copyHOp c =>
        simp only [PinOp.apply, PinnedBuffer.copyH]
        exact PinnedBuffer.inv_setHost _ _ (PinnedBuffer.pin_inv_resize b c.size false m h)
    | copyPOp c =>
        simp only [PinOp.apply, PinnedBuffer.copyP]
        split
        · exact PinnedBuffer.inv_setBoth _ _ _ (PinnedBuffer.pin_inv_resize b c.size false m h)
        · exact PinnedBuffer.pin_inv_resize b c.size false m h
    | copyDeviceOnlyOp c =>
        simp only [PinOp.apply, PinnedBuffer.copyDeviceOnly]
        split
        · exact PinnedBuffer.inv_setDev _ _ (PinnedBuffer.pin_inv_resize b c.size false m h)
        · exact PinnedBuffer.pin_inv_resize b c.size false m h
    | copyPSyncOp c =>
        simp only [PinOp.apply, PinnedBuffer.copyPSync]
        split
        · exact PinnedBuffer.inv_setBoth _ _ _ (PinnedBuffer.pin_inv_resize b c.size false m h)
        · exact PinnedBuffer.pin_inv_resize b c.size false m h
    | writeHostOp i v =>
        simp only [PinOp.apply, PinnedBuffer.writeHost]
        obtain ⟨h1, h2, h3, h4, h5⟩ := h
        exact ⟨h1, h2, h3, by simpa using h4, h5⟩
    | writeDevOp i v =>
        simp only [PinOp.apply, PinnedBuffer.writeDev]
        obtain ⟨h1, h2, h3, h4, h5⟩ := h
        exact ⟨h1, h2, h3, h4, by simpa using h5⟩
    | fillHostOp v =>
        exact PinnedBuffer.inv_setHost b v h
  · intro s cont b m r h heq
    simp only [HostBuffer.genericCopy] at heq
    split at heq
    · exact absurd heq (by simp)
    · split at heq <;> rw [Option.some.injEq] at heq <;> subst heq
      · exact HostBuffer.host_inv_setData _ _ (HostBuffer.host_inv_resize b _ true m h)
      · exact HostBuffer.host_inv_resize b _ true m h
  · intro dst src m hsrc
    exact ⟨hsrc, Nat.le_refl 0, ⟨fun _ => rfl, fun _ => rfl⟩, rfl⟩
  · intro dst src m hsrc
    exact ⟨hsrc, Nat.le_refl 0, ⟨fun _ => rfl, fun _ => rfl⟩, rfl⟩
  · intro dst src m hsrc
    exact ⟨hsrc, Nat.le_refl 0, ⟨fun _ => rfl, fun _ => rfl⟩,
      ⟨fun _ => rfl, fun _ => rfl⟩, rfl, rfl⟩
  · intro n m
    exact DeviceBuffer.dev_inv_resize _ n false m DeviceBuffer.dev_inv_init
  · intro n m
    exact HostBuffer.host_inv_resize _ n false m HostBuffer.host_inv_init
  · intro n m
    exact PinnedBuffer.pin_inv_resize _ n false m PinnedBuffer.pin_inv_init
  · intro m
    rw [DeviceBuffer.new, DeviceBuffer.resize_anew,
      DeviceBuffer.dev_resize_of_le _ 0 false m (Nat.le_refl 0)]
    rfl
  · intro m
    rw [HostBuffer.new, HostBuffer.resize_anew,
      HostBuffer.host_resize_of_le _ 0 false m (Nat.le_refl 0)]
    rfl
  · intro m
    rw [PinnedBuffer.new, PinnedBuffer.resize_anew,
      PinnedBuffer.pin_resize_of_le _ 0 false m (Nat.le_refl 0)]
    rfl

/-- C2 witness: a concrete invariant-preservation instance, hypotheses
discharged by `decide`. -/
theorem spec_C2_witness :
    ((DevOp.resizeOp 5 : DevOp Nat).apply DeviceBuffer.init Mem.empty).1.inv :=
  (spec_C2 Nat).1 (DevOp.resizeOp 5) DeviceBuffer.init Mem.empty (by decide)

/-- C1: after a preserving resize to `n` on any of the three containers, the
first `min(old_size, n)` elements hold the same values as before — both when
the call reallocates and when it does not.  For the dual buffer this holds on
both sides. -/
theorem spec_C1 (T : Type) [Inhabited T] :
    (∀ (b : DeviceBuffer T) (n : Nat) (m : Mem), b.inv →
      ∀ i, i < min b._size n →
        ((b.resize n m).1).devData.getD i default = b.devData.getD i default) ∧
    (∀ (b : HostBuffer T) (n : Nat) (m : Mem), b.inv →
      ∀ i, i < min b._size n →
        ((b.resize n m).1).hostData.getD i default = b.hostData.getD i default) ∧
    (∀ (b : PinnedBuffer T) (n : Nat) (m : Mem), b.inv →
      ∀ i, i < min b._size n →
        ((b.resize n m).1).hostData.getD i default = b.hostData.getD i default ∧
        ((b.resize n m).1).devData.getD i default = b.devData.getD i default) := by
  refine ⟨?_, ?_, ?_⟩
  · intro b n m h i hi
    by_cases hle : n ≤ b.capacity
    · rw [DeviceBuffer.resize, DeviceBuffer.dev_resize_of_le b n true m hle]
    · push_neg at hle
      obtain ⟨h1, h2, h3⟩ := h
      have hsz : 0 < b._size := by omega
      have hptr : b.devptr ≠ none := fun hnone => by have := h2.mpr hnone; omega
      rw [DeviceBuffer.resize, DeviceBuffer.dev_resize_grow b n true m hle,
        if_pos ⟨rfl, hptr, hsz⟩]
      exact overwriteFirst_getD _ _ _ _ (by omega) (by omega)
  · intro b n m h i hi
    by_cases hle : n ≤ b.capacity
    · rw [HostBuffer.resize, HostBuffer.host_resize_of_le b n true m hle]
    · push_neg at hle
      obtain ⟨h1, h2, h3⟩ := h
      have hsz : 0 < b._size := by omega
      have hptr : b.hostptr ≠ none := fun hnone => by have := h2.mpr hnone; omega
      rw [HostBuffer.resize, HostBuffer.host_resize_grow b n true m hle,
        if_pos ⟨rfl, hptr, hsz⟩]
      exact overwriteFirst_getD _ _ _ _ (by omega) (by omega)
  · intro b n m h i hi
    by_cases hle : n ≤ b.capacity
    · rw [PinnedBuffer.resize, PinnedBuffer.pin_resize_of_le b n true m hle]
      exact ⟨rfl, rfl⟩
    · push_neg at hle
      obtain ⟨h1, h2, h3, h4, h5⟩ := h
      have hsz : 0 < b._size := by omega
      have hdptr : b.devptr ≠ none := fun hnone => by have := h2.mpr hnone; omega
      have hptr : b.hostptr ≠ none := fun hnone => hdptr (h3.mp hnone)
      rw [PinnedBuffer.resize, PinnedBuffer.pin_resize_grow b n true m hle,
        if_pos ⟨rfl, hptr, hsz⟩, if_pos ⟨rfl, hptr, hsz⟩]
      exact ⟨overwriteFirst_getD _ _ _ _ (by omega) (by omega),
        overwriteFirst_getD _ _ _ _ (by omega) (by omega)⟩

/-- C1 witness: a concrete preserving resize that reallocates keeps the
prefix. -/
theorem spec_C1_witness :
    ((((DeviceBuffer.new 3 Mem.empty).1 : DeviceBuffer Nat).resize 200 Mem.empty).1).devData.getD 1
        default
      = ((DeviceBuffer.new 3 Mem.empty).1 : DeviceBuffer Nat).devData.getD 1 default :=
  (spec_C1 Nat).1 (DeviceBuffer.new 3 Mem.empty).1 200 Mem.empty (by decide) 1 (by decide)

/-- C4: capacity is monotone non-decreasing: a single `_resize` never lowers
it, a whole sequence of `_resize` calls never lowers it, and a resize with
`n ≤ capacity` changes only the logical size — same capacity, pointer(s),
contents and allocation state, and no CUDA calls. -/
theorem spec_C4 (T : Type) [Inhabited T] :
    (∀ (b : DeviceBuffer T) (n : Nat) (c : Bool) (m : Mem),
      b.capacity ≤ ((b._resize n c m).1).capacity) ∧
    (∀ (b : HostBuffer T) (n : Nat) (c : Bool) (m : Mem),
      b.capacity ≤ ((b._resize n c m).1).capacity) ∧
    (∀ (b : PinnedBuffer T) (n : Nat) (c : Bool) (m : Mem),
      b.capacity ≤ ((b._resize n c m).1).capacity) ∧
    (∀ (b : DeviceBuffer T) (m : Mem) (l : List (Nat × Bool)),
      b.capacity ≤ ((b.resizeSeq m l).1).capacity) ∧
    (∀ (b : HostBuffer T) (m : Mem) (l : List (Nat × Bool)),
      b.capacity ≤ ((b.resizeSeq m l).1).capacity) ∧
    (∀ (b : PinnedBuffer T) (m : Mem) (l : List (Nat × Bool)),
      b.capacity ≤ ((b.resizeSeq m l).1).capacity) ∧
    (∀ (b : DeviceBuffer T) (n : Nat) (c : Bool) (m : Mem), n ≤ b.capacity →
      b._resize n c m = ({ b with _size := n }, m, [])) ∧
    (∀ (b : HostBuffer T) (n : Nat) (c : Bool) (m : Mem), n ≤ b.capacity →
      b._resize n c m = ({ b with _size := n }, m, [])) ∧
    (∀ (b : PinnedBuffer T) (n : Nat) (c : Bool) (m : Mem), n ≤ b.capacity →
      b._resize n c m = ({ b with _size := n }, m, [])) := by
  have hdev : ∀ (b : DeviceBuffer T) (n : Nat) (c : Bool) (m : Mem),
      b.capacity ≤ ((b._resize n c m).1).capacity := by
    intro b n c m
    by_cases hle : n ≤ b.capacity
    · rw [DeviceBuffer.dev_resize_of_le b n c m hle]
    · push_neg at hle
      rw [DeviceBuffer.dev_resize_grow b n c m hle]
      have := growCapacity_ge n (by omega)
      simp only
      omega
  have hhost : ∀ (b : HostBuffer T) (n : Nat) (c : Bool) (m : Mem),
      b.capacity ≤ ((b._resize n c m).1).capacity := by
    intro b n c m
    by_cases hle : n ≤ b.capacity
    · rw [HostBuffer.host_resize_of_le b n c m hle]
    · push_neg at hle
      rw [HostBuffer.host_resize_grow b n c m hle]
      have := growCapacity_ge n (by omega)
      simp only
      omega
  have hpin : ∀ (b : PinnedBuffer T) (n : Nat) (c : Bool) (m : Mem),
      b.capacity ≤ ((b._resize n c m).1).capacity := by
    intro b n c m
    by_cases hle : n ≤ b.capacity
    · rw [PinnedBuffer.pin_resize_of_le b n c m hle]
    · push_neg at hle
      rw [PinnedBuffer.pin_resize_grow b n c m hle]
      have := growCapacity_ge n (by omega)
      simp only
      omega
  refine ⟨hdev, hhost, hpin, ?_, ?_, ?_,
    fun b n c m h => DeviceBuffer.dev_resize_of_le b n c m h,
    fun b n c m h => HostBuffer.host_resize_of_le b n c m h,
    fun b n c m h => PinnedBuffer.pin_resize_of_le b n c m h⟩
  · intro b m l
    induction l generalizing b m with
    | nil => exact Nat.le_refl _
    | cons q l ih =>
        exact Nat.le_trans (hdev b q.1 q.2 m) (ih _ _)
  · intro b m l
    induction l generalizing b m with
    | nil => exact Nat.le_refl _
    | cons q l ih =>
        exact Nat.le_trans (hhost b q.1 q.2 m) (ih _ _)
  · intro b m l
    induction l generalizing b m with
    | nil => exact Nat.le_refl _
    | cons q l ih =>
        exact Nat.le_trans (hpin b q.1 q.2 m) (ih _ _)

/-- C4 witness: a concrete shrink request leaves everything but the size
untouched. -/
theorem spec_C4_witness :
    (((DeviceBuffer.new 5 Mem.empty).1 : DeviceBuffer Nat)._resize 3 true
        ((DeviceBuffer.new 5 Mem.empty : DeviceBuffer Nat × Mem × List Ev)).2.1)
      = ({ ((DeviceBuffer.new 5 Mem.empty : DeviceBuffer Nat × Mem × List Ev)).1 with _size := 3 },
         ((DeviceBuffer.new 5 Mem.empty : DeviceBuffer Nat × Mem × List Ev)).2.1, []) :=
  (spec_C4 Nat).2.2.2.2.2.2.1 (DeviceBuffer.new 5 Mem.empty).1 3 true
    (DeviceBuffer.new 5 Mem.empty).2.1 (by decide)

/-- C5: moving a container into another leaves the source with size 0,
capacity 0 and null pointer(s), equal to a freshly default-constructed empty
container (so every subsequent operation behaves as on one); destroying the
moved-from source frees nothing; and the destination has taken over exactly
the source's capacity, size, pointer(s) and contents. -/
theorem spec_C5 (T : Type) [Inhabited T] :
    (∀ (dst src : DeviceBuffer T) (m : Mem),
      (DeviceBuffer.moveAssign dst src m).2.1 = DeviceBuffer.init ∧
      (DeviceBuffer.moveAssign dst src m).2.1._size = 0 ∧
      (DeviceBuffer.moveAssign dst src m).2.1.capacity = 0 ∧
      (DeviceBuffer.moveAssign dst src m).2.1.devptr = none ∧
      (DeviceBuffer.moveAssign dst src m).2.1
        = (DeviceBuffer.new 0 Mem.empty : DeviceBuffer T × Mem × List Ev).1 ∧
      (∀ m' : Mem, (DeviceBuffer.moveAssign dst src m).2.1.destroy m' = (m', [])) ∧
      (DeviceBuffer.moveAssign dst src m).1.capacity = src.capacity ∧
      (DeviceBuffer.moveAssign dst src m).1._size = src._size ∧
      (DeviceBuffer.moveAssign dst src m).1.devptr = src.devptr ∧
      (DeviceBuffer.moveAssign dst src m).1.devData = src.devData) ∧
    (∀ (dst src : HostBuffer T) (m : Mem),
      (HostBuffer.moveAssign dst src m).2.1 = HostBuffer.init ∧
      (HostBuffer.moveAssign dst src m).2.1._size = 0 ∧
      (HostBuffer.moveAssign dst src m).2.1.capacity = 0 ∧
      (HostBuffer.moveAssign dst src m).2.1.hostptr = none ∧
      (HostBuffer.moveAssign dst src m).2.1
        = (HostBuffer.new 0 Mem.empty : HostBuffer T × Mem × List Ev).1 ∧
      (∀ m' : Mem, (HostBuffer.moveAssign dst src m).2.1.destroy m' = (m', [])) ∧
      (HostBuffer.moveAssign dst src m).1.capacity = src.capacity ∧
      (HostBuffer.moveAssign dst src m).1._size = src._size ∧
      (HostBuffer.moveAssign dst src m).1.hostptr = src.hostptr ∧
      (HostBuffer.moveAssign dst src m).1.hostData = src.hostData) ∧
    (∀ (dst src : PinnedBuffer T) (m : Mem),
      (PinnedBuffer.moveAssign dst src m).2.1 = PinnedBuffer.init ∧
      (PinnedBuffer.moveAssign dst src m).2.1._size = 0 ∧
      (PinnedBuffer.moveAssign dst src m).2.1.capacity = 0 ∧
      (PinnedBuffer.moveAssign dst src m).2.1.hostptr = none ∧
      (PinnedBuffer.moveAssign dst src m).2.1.devptr = none ∧
      (PinnedBuffer.moveAssign dst src m).2.1
        = (PinnedBuffer.new 0 Mem.empty : PinnedBuffer T × Mem × List Ev).1 ∧
      (∀ m' : Mem, (PinnedBuffer.moveAssign dst src m).2.1.destroy m' = (m', [])) ∧
      (PinnedBuffer.moveAssign dst src m).1.capacity = src.capacity ∧
      (PinnedBuffer.moveAssign dst src m).1._size = src._size ∧
      (PinnedBuffer.moveAssign dst src m).1.hostptr = src.hostptr ∧
      (PinnedBuffer.moveAssign dst src m).1.devptr = src.devptr ∧
      (PinnedBuffer.moveAssign dst src m).1.hostData = src.hostData ∧
      (PinnedBuffer.moveAssign dst src m).1.devData = src.devData) :=
  ⟨fun _ _ _ => ⟨rfl, rfl, rfl, rfl, rfl, fun _ => rfl, rfl, rfl, rfl, rfl⟩,
   fun _ _ _ => ⟨rfl, rfl, rfl, rfl, rfl, fun _ => rfl, rfl, rfl, rfl, rfl⟩,
   fun _ _ _ => ⟨rfl, rfl, rfl, rfl, rfl, rfl, fun _ => rfl, rfl, rfl, rfl, rfl, rfl, rfl⟩⟩

/-- C3 counterexample: the claim's formula `128 * ⌈⌈1.1 * n + 10⌉ / 128⌉`,
read in exact (real) arithmetic, fails at `n = 340`: there
`⌈1.1 * 340 + 10⌉ = 384` exactly, so the claimed capacity is `384`, but the
code computes the estimate in IEEE binary64 arithmetic, where
`1.1 * 340.0 + 10.0` is slightly above `384`, its ceiling is `385`, and the
chosen capacity is `512`. -/
theorem spec_C3_cx :
    ((DeviceBuffer.new 340 Mem.empty : DeviceBuffer Nat × Mem × List Ev).1).capacity = 512 ∧
    128 * (((⌈(11 : ℚ) / 10 * 340 + 10⌉).toNat + 127) / 128) = 384 ∧
    (512 : Nat) ≠ 384 := by
  refine ⟨by decide, ?_, by decide⟩
  have h1 : ((11 : ℚ) / 10 * 340 + 10) = ((384 : ℤ) : ℚ) := by norm_num
  rw [h1, Int.ceil_intCast]
  decide

/-- C3 (amended): for every resize with `n` strictly above the current
capacity, on each of the three containers, the new capacity equals
`128 * ⌈ce / 128⌉` where `ce` is `ceil(1.1 * n + 10)` computed in IEEE
binary64 double precision (`conservativeEstimate`); this value is always
`≥ n` and a multiple of the fixed granularity 128, and the same formula is
used by all three containers.  (In exact real arithmetic the formula differs
for some `n`, e.g. `n = 340`.) -/
theorem spec_C3 (T : Type) [Inhabited T] :
    ∀ (n : Nat) (bd : DeviceBuffer T) (bh : HostBuffer T) (bp : PinnedBuffer T)
      (cd ch cp : Bool) (m : Mem),
      bd.capacity < n → bh.capacity < n → bp.capacity < n →
      ((bd._resize n cd m).1).capacity = 128 * ((conservativeEstimate n + 127) / 128) ∧
      ((bh._resize n ch m).1).capacity = 128 * ((conservativeEstimate n + 127) / 128) ∧
      ((bp._resize n cp m).1).capacity = 128 * ((conservativeEstimate n + 127) / 128) ∧
      n ≤ 128 * ((conservativeEstimate n + 127) / 128) ∧
      128 ∣ 128 * ((conservativeEstimate n + 127) / 128) := by
  intro n bd bh bp cd ch cp m hd hh hp
  have hgd : ((bd._resize n cd m).1).capacity = growCapacity n := by
    rw [DeviceBuffer.dev_resize_grow bd n cd m hd]
  have hgh : ((bh._resize n ch m).1).capacity = growCapacity n := by
    rw [HostBuffer.host_resize_grow bh n ch m hh]
  have hgp : ((bp._resize n cp m).1).capacity = growCapacity n := by
    rw [PinnedBuffer.pin_resize_grow bp n cp m hp]
  have hform : growCapacity n = 128 * ((conservativeEstimate n + 127) / 128) := rfl
  exact ⟨hform ▸ hgd, hform ▸ hgh, hform ▸ hgp,
    hform ▸ growCapacity_ge n (by omega), hform ▸ growCapacity_dvd n⟩

/-- Host-side operations do not touch the device data. -/
theorem HDOp.app_dev_frame {T : Type} [Inhabited T] [Zero T] (op : HDOp T)
    (b : PinnedBuffer T) (h : op.isHostSide = true) : (op.app b).devData = b.devData := by
  cases op with
  | wHost i v => rfl
  | cHost =>
      simp only [HDOp.app]
      rw [PinnedBuffer.clearHost]
      split <;> rfl
  | wDev i v => simp [HDOp.isHostSide] at h
  | cDev => simp [HDOp.isHostSide] at h

/-- Device-side operations do not touch the host data. -/
theorem HDOp.app_host_frame {T : Type} [Inhabited T] [Zero T] (op : HDOp T)
    (b : PinnedBuffer T) (h : op.isHostSide = false) : (op.app b).hostData = b.hostData := by
  cases op with
  | wDev i v => rfl
  | cDev =>
      simp only [HDOp.app]
      rw [PinnedBuffer.clearDevice]
      split <;> rfl
  | wHost i v => simp [HDOp.isHostSide] at h
  | cHost => simp [HDOp.isHostSide] at h

/-- None of the side operations changes the logical size. -/
theorem HDOp.app_size {T : Type} [Inhabited T] [Zero T] (op : HDOp T) (b : PinnedBuffer T) :
    (op.app b)._size = b._size := by
  cases op with
  | wHost i v => rfl
  | wDev i v => rfl
  | cHost =>
      simp only [HDOp.app]
      rw [PinnedBuffer.clearHost]
      split <;> rfl
  | cDev =>
      simp only [HDOp.app]
      rw [PinnedBuffer.clearDevice]
      split <;> rfl

/-- A device-side operation's effect on the device data depends only on the
device data and the size. -/
theorem HDOp.app_dev_congr {T : Type} [Inhabited T] [Zero T] (op : HDOp T)
    (b b' : PinnedBuffer T) (h : op.isHostSide = false)
    (hd : b.devData = b'.devData) (hs : b._size = b'._size) :
    (op.app b).devData = (op.app b').devData := by
  cases op with
  | wDev i v => simp only [HDOp.app, PinnedBuffer.writeDev]; rw [hd]
  | cDev =>
      simp only [HDOp.app]
      by_cases hpos : 0 < b'._size
      · rw [PinnedBuffer.clearDevice, if_pos (by omega), PinnedBuffer.clearDevice, if_pos hpos]
        simp only
        rw [hd, hs]
      · rw [PinnedBuffer.clearDevice, if_neg (by omega), PinnedBuffer.clearDevice, if_neg hpos]
        exact hd
  | wHost i v => simp [HDOp.isHostSide] at h
  | cHost => simp [HDOp.isHostSide] at h

/-- A host-side operation's effect on the host data depends only on the host
data and the size. -/
theorem HDOp.app_host_congr {T : Type} [Inhabited T] [Zero T] (op : HDOp T)
    (b b' : PinnedBuffer T) (h : op.isHostSide = true)
    (hd : b.hostData = b'.hostData) (hs : b._size = b'._size) :
    (op.app b).hostData = (op.app b').hostData := by
  cases op with
  | wHost i v => simp only [HDOp.app, PinnedBuffer.writeHost]; rw [hd]
  | cHost =>
      simp only [HDOp.app]
      by_cases hpos : 0 < b'._size
      · rw [PinnedBuffer.clearHost, if_pos (by omega), PinnedBuffer.clearHost, if_pos hpos]
        simp only
        rw [hd, hs]
      · rw [PinnedBuffer.clearHost, if_neg (by omega), PinnedBuffer.clearHost, if_neg hpos]
        exact hd
  | wDev i v => simp [HDOp.isHostSide] at h
  | cDev => simp [HDOp.isHostSide] at h

/-- The device side of a run of side operations is exactly the device side of
the run of its device-side operations alone. -/
theorem HDOp.run_devData {T : Type} [Inhabited T] [Zero T] :
    ∀ (l : List (HDOp T)) (b b' : PinnedBuffer T),
      b.devData = b'.devData → b._size = b'._size →
      (HDOp.run b l).devData
        = (HDOp.run b' (l.filter (fun o => !o.isHostSide))).devData := by
  intro l
  induction l with
  | nil =>
      intro b b' hd hs
      simpa [HDOp.run] using hd
  | cons op l ih =>
      intro b b' hd hs
      by_cases hside : op.isHostSide = true
      · rw [List.filter_cons_of_neg (by simp [hside]), HDOp.run]
        exact ih (op.app b) b'
          (by rw [HDOp.app_dev_frame op b hside]; exact hd)
          (by rw [HDOp.app_size]; exact hs)
      · rw [List.filter_cons_of_pos (by simp [hside]), HDOp.run, HDOp.run]
        exact ih (op.app b) (op.app b')
          (HDOp.app_dev_congr op b b' (by simpa using hside) hd hs)
          (by rw [HDOp.app_size, HDOp.app_size]; exact hs)

/-- The host side of a run of side operations is exactly the host side of the
run of its host-side operations alone. -/
theorem HDOp.run_hostData {T : Type} [Inhabited T] [Zero T] :
    ∀ (l : List (HDOp T)) (b b' : PinnedBuffer T),
      b.hostData = b'.hostData → b._size = b'._size →
      (HDOp.run b l).hostData
        = (HDOp.run b' (l.filter (fun o => o.isHostSide))).hostData := by
  intro l
  induction l with
  | nil =>
      intro b b' hd hs
      simpa [HDOp.run] using hd
  | cons op l ih =>
      intro b b' hd hs
      by_cases hside : op.isHostSide = true
      · rw [List.filter_cons_of_pos (by simp [hside]), HDOp.run, HDOp.run]
        exact ih (op.app b) (op.app b')
          (HDOp.app_host_congr op b b' hside hd hs)
          (by rw [HDOp.app_size, HDOp.app_size]; exact hs)
      · rw [List.filter_cons_of_neg (by simp [hside]), HDOp.run]
        exact ih (op.app b) b'
          (by rw [HDOp.app_host_frame op b (by simpa using hside)]; exact hd)
          (by rw [HDOp.app_size]; exact hs)

/-- C6: writes to one side of a dual buffer never change the other side
absent an explicit transfer: over any interleaving of host-side stores /
`clearHost` and device-side stores / `clearDevice`, each side's contents
equal those produced by that side's operations alone; in particular, after
writing distinct values to the two sides, reading each side back yields the
value last written to it. -/
theorem spec_C6 (T : Type) [Inhabited T] [Zero T] :
    (∀ (b : PinnedBuffer T) (l : List (HDOp T)),
      (HDOp.run b l).devData = (HDOp.run b (l.filter (fun o => !o.isHostSide))).devData ∧
      (HDOp.run b l).hostData = (HDOp.run b (l.filter (fun o => o.isHostSide))).hostData) ∧
    (∀ (b : PinnedBuffer T) (i : Nat) (v : T) (j : Nat) (w : T),
      i < b.hostData.length → j < b.devData.length →
      ((b.writeHost i v).writeDev j w).readHost i = v ∧
      ((b.writeHost i v).writeDev j w).readDev j = w) := by
  constructor
  · intro b l
    exact ⟨HDOp.run_devData l b b rfl rfl, HDOp.run_hostData l b b rfl rfl⟩
  · intro b i v j w hi hj
    constructor
    · show ((b.hostData.set i v).getD i default) = v
      rw [List.getD_eq_getElem?_getD, List.getElem?_set_eq_of_lt v (by simpa using hi)]
      rfl
    · show (((b.devData.set j w).getD j default)) = w
      rw [List.getD_eq_getElem?_getD, List.getElem?_set_eq_of_lt w (by simpa using hj)]
      rfl

/-- C6 witness: concrete distinct values written to the two sides read back
unchanged. -/
theorem spec_C6_witness :
    ((((PinnedBuffer.new 1 Mem.empty).1 : PinnedBuffer Nat).writeHost 0 7).writeDev 0
      9).readHost 0 = 7 ∧
    ((((PinnedBuffer.new 1 Mem.empty).1 : PinnedBuffer Nat).writeHost 0 7).writeDev 0
      9).readDev 0 = 9 :=
  (spec_C6 Nat).2 (PinnedBuffer.new 1 Mem.empty).1 0 7 0 9 (by decide) (by decide)

/-- C7: the round trip — fill the host side with `v`, `uploadToDevice`,
`clearHost`, `downloadFromDevice` (synchronous) — reproduces `v` on the host
side exactly. -/
theorem spec_C7 (T : Type) [Inhabited T] [Zero T] :
    ∀ (b : PinnedBuffer T) (v : List T), b.inv → v.length = b._size →
      ∀ i, i < b._size →
        (((((b.fillHost v).uploadToDevice).1.clearHost).1.downloadFromDevice
            ContainersSynch.Synch).1).readHost i = v.getD i default := by
  intro b v h hv i hi
  obtain ⟨h1, h2, h3, h4, h5⟩ := h
  have hpos : 0 < b._size := by omega
  simp only [PinnedBuffer.fillHost, PinnedBuffer.uploadToDevice, PinnedBuffer.clearHost,
    PinnedBuffer.downloadFromDevice, PinnedBuffer.readHost, if_pos hpos]
  rw [overwriteFirst_getD _ _ _ _ hi (by rw [overwriteFirst_length] <;> omega),
    overwriteFirst_getD _ _ _ _ hi (by rw [overwriteFirst_length] <;> omega),
    overwriteFirst_getD _ _ _ _ hi (by omega)]

/-- C7 witness: a concrete round trip. -/
theorem spec_C7_witness :
    ((((((PinnedBuffer.new 2 Mem.empty).1 : PinnedBuffer Nat).fillHost
          [3, 4]).uploadToDevice).1.clearHost).1.downloadFromDevice
        ContainersSynch.Synch).1.readHost 1 = [3, 4].getD 1 default :=
  spec_C7 Nat (PinnedBuffer.new 2 Mem.empty).1 [3, 4] (by decide) (by decide) 1 (by decide)

/-- C8 counterexample: with source element size 4 and destination element
size 8, the two sizes are integer multiples of one another (8 = 2 * 4), so
the claim says the copy succeeds; the code dies because 4 is not a multiple
of 8. -/
theorem spec_C8_cx :
    8 % 4 = 0 ∧
    ((HostBuffer.init : HostBuffer Nat).genericCopy 8 ⟨4, 1, [0]⟩ Mem.empty) = none := by
  exact ⟨rfl, by decide⟩

/-- C8 (amended): the type-erased `genericCopy` into a host buffer of element
size `sizeofT` from a source of element size `cont.datatype_size` succeeds
exactly when the *source* element size is an integer multiple of the
*destination* element size, and dies exactly when
`cont.datatype_size % sizeofT ≠ 0` — the divisibility is one-sided, not
either-sided. -/
theorem spec_C8 (T : Type) [Inhabited T] :
    ∀ (b : HostBuffer T) (sizeofT : Nat) (cont : ErasedSource T) (m : Mem),
      (b.genericCopy sizeofT cont m).isSome = true ↔ cont.datatype_size % sizeofT = 0 := by
  intro b s cont m
  simp only [HostBuffer.genericCopy]
  split
  · rename_i h
    simpa using h
  · rename_i h
    push_neg at h
    split <;> simpa using h

/-- C9 counterexample: the claim says receiving from a `HostBuffer` is a
host-to-device transfer, so the dual buffer's device side should hold the
source's contents (9); in the code the device side still holds its previous
value (5) — the memcpy went into the host side. -/
theorem spec_C9_cx :
    (((((PinnedBuffer.new 1 Mem.empty).1 : PinnedBuffer Nat).writeHost 0 5).uploadToDevice).1.copyH
        (((HostBuffer.new 1 Mem.empty).1 : HostBuffer Nat).write 0 9) Mem.empty).1.readDev 0
      = 5 ∧
    (((HostBuffer.new 1 Mem.empty).1 : HostBuffer Nat).write 0 9).read 0 = 9 ∧
    (5 : Nat) ≠ 9 :=
  ⟨by decide, by decide, by decide⟩

/-- `_resize` always sets the logical size to the request. -/
theorem PinnedBuffer._resize_size {T : Type} [Inhabited T] (b : PinnedBuffer T)
    (n : Nat) (c : Bool) (m : Mem) : ((b._resize n c m).1)._size = n := by
  by_cases hle : n ≤ b.capacity
  · rw [PinnedBuffer.pin_resize_of_le b n c m hle]
  · push_neg at hle
    rw [PinnedBuffer.pin_resize_grow b n c m hle]

/-- C9 (amended): receiving from a `HostBuffer` sets the dual buffer's size
to the source's size and copies the source's contents into the dual buffer's
*host* side (a host-to-host memcpy); the device side receives nothing — when
no reallocation is triggered it is unchanged. -/
theorem spec_C9 (T : Type) [Inhabited T] :
    ∀ (p : PinnedBuffer T) (hb : HostBuffer T) (m : Mem), hb.inv →
      ((p.copyH hb m).1._size = hb._size) ∧
      (∀ i, i < hb._size → (p.copyH hb m).1.readHost i = hb.read i) ∧
      (hb._size ≤ p.capacity → (p.copyH hb m).1.devData = p.devData) := by
  intro p hb m hinv
  obtain ⟨k1, k2, k3⟩ := hinv
  refine ⟨?_, ?_, ?_⟩
  · simp only [PinnedBuffer.copyH, PinnedBuffer.resize_anew, HostBuffer.size]
    exact PinnedBuffer._resize_size p hb._size false m
  · intro i hi
    simp only [PinnedBuffer.copyH, PinnedBuffer.resize_anew, HostBuffer.size,
      PinnedBuffer.readHost, HostBuffer.read]
    rw [PinnedBuffer._resize_size p hb._size false m]
    exact overwriteFirst_getD _ _ _ _ hi (by omega)
  · intro hle
    simp only [PinnedBuffer.copyH, PinnedBuffer.resize_anew, HostBuffer.size]
    rw [PinnedBuffer.pin_resize_of_le p hb._size false m hle]

/-- C9 witness: a concrete host-to-host copy. -/
theorem spec_C9_witness :
    ((((PinnedBuffer.new 1 Mem.empty).1 : PinnedBuffer Nat).copyH
        (((HostBuffer.new 1 Mem.empty).1 : HostBuffer Nat).write 0 9) Mem.empty).1.readHost 0
      = (((HostBuffer.new 1 Mem.empty).1 : HostBuffer Nat).write 0 9).read 0) :=
  ((spec_C9 Nat (PinnedBuffer.new 1 Mem.empty).1
      (((HostBuffer.new 1 Mem.empty).1 : HostBuffer Nat).write 0 9) Mem.empty
      (by decide)).2.1) 0 (by decide)

/-- Every event a `DeviceBuffer::_resize` emits is an allocation, an
asynchronous copy, or a free. -/
theorem DeviceBuffer.dev_resize_trace {T : Type} [Inhabited T] (b : DeviceBuffer T)
    (n : Nat) (c : Bool) (m : Mem) :
    ∀ e ∈ (b._resize n c m).2.2, e = Ev.mallocDev ∨ e = Ev.memcpyAsync ∨ e = Ev.freeDev := by
  intro e he
  by_cases hle : n ≤ b.capacity
  · rw [DeviceBuffer.dev_resize_of_le b n c m hle] at he
    exact absurd he (by simp)
  · push_neg at hle
    rw [DeviceBuffer.dev_resize_grow b n c m hle] at he
    simp only [List.append_assoc, List.mem_append] at he
    rcases he with he | he | he
    · simp at he
      tauto
    · split at he <;> simp at he <;> tauto
    · split at he <;> simp at he <;> tauto

/-- Every event a `HostBuffer::_resize` emits is an allocation, a host
memcpy, or a free. -/
theorem HostBuffer.host_resize_trace {T : Type} [Inhabited T] (b : HostBuffer T)
    (n : Nat) (c : Bool) (m : Mem) :
    ∀ e ∈ (b._resize n c m).2.2, e = Ev.mallocHost ∨ e = Ev.hostMemcpy ∨ e = Ev.freeHost := by
  intro e he
  by_cases hle : n ≤ b.capacity
  · rw [HostBuffer.host_resize_of_le b n c m hle] at he
    exact absurd he (by simp)
  · push_neg at hle
    rw [HostBuffer.host_resize_grow b n c m hle] at he
    simp only [List.append_assoc, List.mem_append] at he
    rcases he with he | he | he
    · simp at he
      tauto
    · split at he <;> simp at he <;> tauto
    · split at he <;> simp at he <;> tauto

/-- A `PinnedBuffer::resize_anew` never copies, hence never synchronises. -/
theorem PinnedBuffer._resize_anew_trace {T : Type} [Inhabited T] (b : PinnedBuffer T)
    (n : Nat) (m : Mem) :
    ∀ e ∈ (b._resize n false m).2.2,
      e = Ev.mallocHost ∨ e = Ev.mallocDev ∨ e = Ev.freeHost ∨ e = Ev.freeDev := by
  intro e he
  by_cases hle : n ≤ b.capacity
  · rw [PinnedBuffer.pin_resize_of_le b n false m hle] at he
    exact absurd he (by simp)
  · push_neg at hle
    rw [PinnedBuffer.pin_resize_grow b n false m hle] at he
    rw [if_neg (by simp)] at he
    simp only [List.append_assoc, List.mem_append] at he
    rcases he with he | he | he
    · simp at he
      tauto
    · split at he <;> simp at he <;> tauto
    · split at he <;> simp at he <;> tauto

/-- A `PinnedBuffer::_resize` stream-synchronises exactly when it both
reallocates and has previous contents to preserve. -/
theorem PinnedBuffer._resize_blocking {T : Type} [Inhabited T] (b : PinnedBuffer T)
    (n : Nat) (c : Bool) (m : Mem) :
    (∃ e ∈ (b._resize n c m).2.2, blockingEv e) ↔
      (b.capacity < n ∧ (c = true ∧ b.hostptr ≠ none ∧ 0 < b._size)) := by
  by_cases hle : n ≤ b.capacity
  · rw [PinnedBuffer.pin_resize_of_le b n c m hle]
    constructor
    · rintro ⟨e, he, _⟩
      exact absurd he (by simp)
    · rintro ⟨h, _⟩
      omega
  · push_neg at hle
    rw [PinnedBuffer.pin_resize_grow b n c m hle]
    by_cases hc : c = true ∧ b.hostptr ≠ none ∧ 0 < b._size
    · simp only [if_pos hc]
      constructor
      · intro _
        exact ⟨hle, hc⟩
      · intro _
        exact ⟨Ev.streamSync, by simp, Or.inl rfl⟩
    · simp only [if_neg hc]
      constructor
      · rintro ⟨e, he, hb⟩
        exfalso
        simp only [List.append_assoc, List.mem_append] at he
        rcases hb with rfl | rfl <;>
          (rcases he with he | he | he | he
           · simp at he
           · simp at he
           · split at he <;> simp at he
           · split at he <;> simp at he)
      · rintro ⟨_, h⟩
        exact (hc h).elim

/-- C10 counterexample: the claim says every resize not marked synchronous
returns once enqueued, performing no stream synchronisation; but the dual
buffer's preserving `resize(n, stream)` that reallocates a nonempty buffer
calls `cudaStreamSynchronize`. -/
theorem spec_C10_cx :
    Ev.streamSync ∈
      ((((PinnedBuffer.new 5 Mem.empty).1 : PinnedBuffer Nat)).resize 200 Mem.empty).2.2 := by
  decide

/-- C10 (amended): all resize/copy/clear/transfer calls not explicitly
synchronous are fire-and-forget — their traces contain no stream
synchronisation and no blocking `cudaMemcpy` — with one exception: the dual
buffer's preserving resize blocks exactly when it reallocates a buffer with
previous contents (`capacity < n`, non-null pointer, `size > 0`). -/
theorem spec_C10 (T : Type) [Inhabited T] [Zero T] :
    (∀ (op : DevOp T) (b : DeviceBuffer T) (m : Mem), op.isSync = false →
      ∀ e ∈ (op.apply b m).2.2, ¬ blockingEv e) ∧
    (∀ (op : HostOp T) (b : HostBuffer T) (m : Mem),
      ∀ e ∈ (op.apply b m).2.2, ¬ blockingEv e) ∧
    (∀ (op : PinOp T) (b : PinnedBuffer T) (m : Mem), op.isSync = false →
      (∀ n, op = PinOp.resizeOp n → ¬ (b.capacity < n ∧ b.hostptr ≠ none ∧ 0 < b._size)) →
      ∀ e ∈ (op.apply b m).2.2, ¬ blockingEv e) ∧
    (∀ (s : Nat) (cont : ErasedSource T) (b : HostBuffer T) (m : Mem)
        (r : HostBuffer T × Mem × List Ev),
      b.genericCopy s cont m = some r → ∀ e ∈ r.2.2, ¬ blockingEv e) ∧
    (∀ (n : Nat) (b : PinnedBuffer T) (m : Mem),
      (∃ e ∈ (b.resize n m).2.2, blockingEv e) ↔
        (b.capacity < n ∧ b.hostptr ≠ none ∧ 0 < b._size)) := by
  have hdev : ∀ (b : DeviceBuffer T) (n : Nat) (c : Bool) (m : Mem),
      ∀ e ∈ (b._resize n c m).2.2, ¬ blockingEv e := by
    intro b n c m e he
    rcases DeviceBuffer.dev_resize_trace b n c m e he with rfl | rfl | rfl <;>
      rintro (h | h) <;> cases h
  have hhost : ∀ (b : HostBuffer T) (n : Nat) (c : Bool) (m : Mem),
      ∀ e ∈ (b._resize n c m).2.2, ¬ blockingEv e := by
    intro b n c m e he
    rcases HostBuffer.host_resize_trace b n c m e he with rfl | rfl | rfl <;>
      rintro (h | h) <;> cases h
  have hpin : ∀ (b : PinnedBuffer T) (n : Nat) (m : Mem),
      ∀ e ∈ (b._resize n false m).2.2, ¬ blockingEv e := by
    intro b n m e he
    rcases PinnedBuffer._resize_anew_trace b n m e he with rfl | rfl | rfl | rfl <;>
      rintro (h | h) <;> cases h
  have happend : ∀ (l : List Ev) (e₀ : Ev), ¬ blockingEv e₀ →
      (∀ e ∈ l, ¬ blockingEv e) → ∀ e ∈ l ++ [e₀], ¬ blockingEv e := by
    intro l e₀ h0 hl e he
    rcases List.mem_append.mp he with h | h
    · exact hl e h
    · rcases List.mem_singleton.mp h with rfl
      exact h0
  have hasync : ¬ blockingEv Ev.memcpyAsync := by rintro (h | h) <;> cases h
  have hmemcpy : ¬ blockingEv Ev.hostMemcpy := by rintro (h | h) <;> cases h
  have hmemset : ¬ blockingEv Ev.memsetAsync := by rintro (h | h) <;> cases h
  have hhmemset : ¬ blockingEv Ev.hostMemset := by rintro (h | h) <;> cases h
  refine ⟨?_, ?_, ?_, ?_, ?_⟩
  · intro op b m hsync
    cases op with
    | resizeOp n => exact hdev b n true m
    | resizeAnewOp n => exact hdev b n false m
    | clearOp =>
        simp only [DevOp.apply]
        rw [DeviceBuffer.clearDevice]
        split
        · intro e he
          rcases List.mem_singleton.mp he with rfl
          exact hmemset
        · intro e he
          exact absurd he (by simp)
    | copyDOp c =>
        simp only [DevOp.apply, DeviceBuffer.copyD]
        split
        · exact happend _ _ hasync (hdev b c.size false m)
        · exact hdev b c.size false m
    | copyHOp s l =>
        simp only [DevOp.apply, DeviceBuffer.copyH]
        split
        · exact happend _ _ hasync (hdev b s false m)
        · exact hdev b s false m
    | copySyncOp c => simp [DevOp.isSync] at hsync
  · intro op b m
    cases op with
    | resizeOp n => exact hhost b n true m
    | resizeAnewOp n => exact hhost b n false m
    | clearOp =>
        simp only [HostOp.apply]
        rw [HostBuffer.clear]
        intro e he
        rcases List.mem_singleton.mp he with rfl
        exact hhmemset
    | writeOp i v =>
        intro e he
        exact absurd he (by simp [HostOp.apply])
    | copyHOp c =>
        simp only [HostOp.apply, HostBuffer.copyH]
        exact happend _ _ hmemcpy (hhost b c.size true m)
    | copyDOp c =>
        simp only [HostOp.apply, HostBuffer.copyD]
        split
        · exact happend _ _ hasync (hhost b c.size true m)
        · exact hhost b c.size true m
  · intro op b m hsync hres
    cases op with
    | resizeOp n =>
        have hcond := hres n rfl
        simp only [PinOp.apply, PinnedBuffer.resize]
        intro e he hb
        exact absurd (((PinnedBuffer._resize_blocking b n true m).mp ⟨e, he, hb⟩))
          (by rintro ⟨hn, _, hp, hs⟩; exact hcond ⟨hn, hp, hs⟩)
    | resizeAnewOp n => exact hpin b n m
    | downloadOp s =>
        cases s with
        | Synch => simp [PinOp.isSync] at hsync
        | Asynch =>
            intro e he
            simp only [PinOp.apply, PinnedBuffer.downloadFromDevice] at he
            rw [if_neg (show ¬(ContainersSynch.Asynch = ContainersSynch.Synch) from by
                  intro hcon; cases hcon), List.append_nil] at he
            split at he
            · rcases List.mem_singleton.mp he with rfl
              exact hasync
            · exact absurd he (by simp)
    | uploadOp =>
        simp only [PinOp.apply, PinnedBuffer.uploadToDevice]
        split
        · intro e he
          rcases List.mem_singleton.mp he with rfl
          exact hasync
        · intro e he
          exact absurd he (by simp)
    | clearOp =>
        simp only [PinOp.apply, PinnedBuffer.clear]
        intro e he
        rcases List.mem_append.mp he with h | h
        · rw [PinnedBuffer.clearDevice] at h
          split at h
          · rcases List.mem_singleton.mp h with rfl
            exact hmemset
          · exact absurd h (by simp)
        · rw [PinnedBuffer.clearHost] at h
          split at h
          · rcases List.mem_singleton.mp h with rfl
            exact hhmemset
          · exact absurd h (by simp)
    | clearDeviceOp =>
        simp only [PinOp.apply]
        rw [PinnedBuffer.clearDevice]
        split
        · intro e he
          rcases List.mem_singleton.mp he with rfl
          exact hmemset
        · intro e he
          exact absurd he (by simp)
    | clearHostOp =>
        simp only [PinOp.apply]
        rw [PinnedBuffer.clearHost]
        split
        · intro e he
          rcases List.mem_singleton.mp he with rfl
          exact hhmemset
        · intro e he
          exact absurd he (by simp)
    | copyDOp c =>
        simp only [PinOp.apply, PinnedBuffer.copyD]
        split
        · exact happend _ _ hasync (hpin b c.size m)
        · exact hpin b c.size m
    | copyHOp c =>
        simp only [PinOp.apply, PinnedBuffer.copyH]
        exact happend _ _ hmemcpy (hpin b c.size m)
    | copyPOp c =>
        simp only [PinOp.apply, PinnedBuffer.copyP]
        split
        · intro e he
          rcases List.mem_append.mp he with h | h
          · exact hpin b c.size m e h
          · rcases List.mem_cons.mp h with rfl | h
            · exact hasync
            · rcases List.mem_singleton.mp h with rfl
              exact hmemcpy
        · exact hpin b c.size m
    | copyDeviceOnlyOp c =>
        simp only [PinOp.apply, PinnedBuffer.copyDeviceOnly]
        split
        · exact happend _ _ hasync (hpin b c.size m)
        · exact hpin b c.size m
    | copyPSyncOp c => simp [PinOp.isSync] at hsync
    | writeHostOp i v =>
        intro e he
        exact absurd he (by simp [PinOp.apply])
    | writeDevOp i v =>
        intro e he
        exact absurd he (by simp [PinOp.apply])
    | fillHostOp v =>
        intro e he
        exact absurd he (by simp [PinOp.apply])
  · intro s cont b m r heq
    simp only [HostBuffer.genericCopy] at heq
    split at heq
    · exact absurd heq (by simp)
    · split at heq <;> rw [Option.some.injEq] at heq <;> subst heq
      · exact happend _ _ hasync (hhost b _ true m)
      · exact hhost b _ true m
  · intro n b m
    rw [PinnedBuffer.resize, PinnedBuffer._resize_blocking b n true m]
    constructor
    · rintro ⟨h1, _, h2, h3⟩
      exact ⟨h1, h2, h3⟩
    · rintro ⟨h1, h2, h3⟩
      exact ⟨h1, rfl, h2, h3⟩

/-- C10 witness: a concrete non-blocking reallocating device resize. -/
theorem spec_C10_witness : ¬ blockingEv Ev.mallocDev :=
  (spec_C10 Nat).1 (DevOp.resizeOp 5) DeviceBuffer.init Mem.empty rfl Ev.mallocDev (by decide)

/-- C3 witness: a concrete reallocation on all three containers. -/
theorem spec_C3_witness :
    (((DeviceBuffer.init : DeviceBuffer Nat)._resize 5 true Mem.empty).1).capacity
        = 128 * ((conservativeEstimate 5 + 127) / 128) ∧
      (((HostBuffer.init : HostBuffer Nat)._resize 5 true Mem.empty).1).capacity
        = 128 * ((conservativeEstimate 5 + 127) / 128) ∧
      (((PinnedBuffer.init : PinnedBuffer Nat)._resize 5 true Mem.empty).1).capacity
        = 128 * ((conservativeEstimate 5 + 127) / 128) ∧
      5 ≤ 128 * ((conservativeEstimate 5 + 127) / 128) ∧
      128 ∣ 128 * ((conservativeEstimate 5 + 127) / 128) :=
  spec_C3 Nat 5 DeviceBuffer.init HostBuffer.init PinnedBuffer.init true true true Mem.empty
    (by decide) (by decide) (by decide)

end Containers
